import Mathlib

/-!
Verification development for the RLM (Recursive Language Model) execution
engine of the Ouroboros browser.  The definitions below are a shallow
embedding of the TypeScript sources:

  * `src/electron/main/rlm/caps.ts`      → result capping and token estimation
  * `src/electron/main/rlm/history.ts`   → `compactHistory`
  * `src/electron/main/rlm/parser.ts`    → `extractCodeBlocks` and its four strategies
  * `src/electron/main/rlm/context.ts`   → `RLMEngine.runTask`, `handleSubCall`,
                                           `handleSubBatch`, `summarize`,
                                           `summarizeResult`, `summarizeIntent`,
                                           `getContinuationPrompt`
  * the REPL runtime (`REPLRuntime.execute`, the `_llm_query` / `_llm_batch`
    host bridges)

JavaScript runtime values crossing the isolate boundary are JSON-safe deep
copies; they are modelled by the inductive type `Val`.  JS numbers are
modelled as integers (`Int`): none of the verified properties depend on
fractional values, and every numeric literal the engine itself produces is
an integer.  Strings are modelled by Lean `String` with `length` counting
characters (the engine's inputs are ordinary model text, for which JS
UTF-16 length and character count agree on the code points involved).

External effects (the language model, the evaluation of user JS inside the isolate,
tab state, environment metadata) are abstracted as oracles: the loop logic,
event emission, budget enforcement and error encoding — the subjects of the
claims — are translated from the source verbatim.
-/

/-- JSON-safe JavaScript values as they cross the isolate boundary.
`undef` models the JS value `undefined` (a possible execution result;
`JSON.stringify` of it is `undefined`, i.e. absent). -/
inductive Val where
  | null : Val
  | undef : Val
  | bool : Bool → Val
  | num : Int → Val
  | str : String → Val
  | arr : List Val → Val
  | obj : List (String × Val) → Val

/-- First binding of a key in the field list of a JS object literal.
JS property lookup on the plain objects built here: later duplicate keys
overwrite earlier ones, which `JSON.parse` realises by keeping the last
binding; the parser below stores fields in that final form, so lookup of
the first occurrence is exact. -/
def lookupField (fs : List (String × Val)) (k : String) : Option Val :=
  match fs with
  | [] => none
  | (k', v) :: rest => if k' = k then some v else lookupField rest k

/-- JS truthiness of a modelled value (`undefined`, `null`, `false`, `0`
and `""` are falsy; objects and arrays are always truthy). -/
def jsTruthy : Val → Bool
  | .null => false
  | .undef => false
  | .bool b => b
  | .num n => n ≠ 0
  | .str s => s ≠ ""
  | .arr _ => true
  | .obj _ => true

/-- Truthiness of a field access `o.k` (missing key reads as `undefined`). -/
def isTruthyField (fs : List (String × Val)) (k : String) : Bool :=
  match lookupField fs k with
  | some v => jsTruthy v
  | none => false

/-- JS `String.prototype.slice(0, n)` on a string. -/
def strTake (s : String) (n : Nat) : String :=
  String.mk (s.data.take n)

/-- JS `\s` whitespace (the ASCII part; the inputs of the engine are model
text, for which this coincides with the JS class on every character that
occurs). -/
def jsWhitespace (c : Char) : Bool :=
  c = ' ' || c = '\t' || c = '\n' || c = '\r' || c = '\x0b' || c = '\x0c'

/-- JS `String.prototype.trim`. -/
def jsTrim (s : String) : String :=
  String.mk (((s.data.dropWhile jsWhitespace).reverse.dropWhile jsWhitespace).reverse)

/-- Splitter for JS `String.prototype.split('\\n')` (keeps empty
segments, including a trailing one); structural so that concrete
evaluation reduces in the kernel. -/
def splitLinesGo (acc : List Char) : List Char → List String
  | [] => [String.mk acc.reverse]
  | c :: cs =>
    if c = '\n' then String.mk acc.reverse :: splitLinesGo [] cs
    else splitLinesGo (c :: acc) cs

/-- JS `s.split('\\n')`. -/
def jsSplitNewline (s : String) : List String :=
  splitLinesGo [] s.data

/-- JS `String.prototype.includes`, on character lists. -/
def listContainsSub (needle : List Char) : List Char → Bool
  | [] => needle.isEmpty
  | c :: rest => needle.isPrefixOf (c :: rest) || listContainsSub needle rest

/-- JS `String.prototype.includes`. -/
def strIncludes (hay needle : String) : Bool :=
  listContainsSub needle.data hay.data

/-- Escape one character as inside a JSON string literal
(`JSON.stringify` escaping). -/
def jsonEscapeChar (c : Char) : List Char :=
  if c = '"' then ['\\', '"']
  else if c = '\\' then ['\\', '\\']
  else if c = '\n' then ['\\', 'n']
  else if c = '\r' then ['\\', 'r']
  else if c = '\t' then ['\\', 't']
  else if c = '\x08' then ['\\', 'b']
  else if c = '\x0c' then ['\\', 'f']
  else if c.toNat < 32 then
    ('\\' :: 'u' :: '0' :: '0' :: (Nat.toDigits 16 c.toNat))
  else [c]

/-- Body of a JSON string literal for `s` (without the surrounding quotes). -/
def jsonEscape (s : String) : String :=
  String.mk (s.data.flatMap jsonEscapeChar)

mutual

/-- Model of `JSON.stringify` on modelled values.  Returns `none` exactly when JS
returns `undefined` (top-level `undefined`). -/
def jsonStringifyVal : Val → Option String
  | .null => some ("null")
  | .undef => none
  | .bool b => some (if b then "true" else "false")
  | .num n => some (toString n)
  | .str s => some ("\"" ++ jsonEscape s ++ "\"")
  | .arr xs => some ("[" ++ String.intercalate ("," ) (jsonStringifyArr xs) ++ "]")
  | .obj fs => some ("\x7b" ++ String.intercalate ("," ) (jsonStringifyObj fs) ++ "\x7d")

/-- Array elements: elements that stringify to `undefined` serialise as
`null`. -/
def jsonStringifyArr : List Val → List String
  | [] => []
  | x :: xs => ((jsonStringifyVal x).getD ("null")) :: jsonStringifyArr xs

/-- Object fields: fields whose value stringifies to `undefined` are
omitted. -/
def jsonStringifyObj : List (String × Val) → List String
  | [] => []
  | (k, v) :: fs =>
    match jsonStringifyVal v with
    | none => jsonStringifyObj fs
    | some sv => ("\"" ++ jsonEscape k ++ "\":" ++ sv) :: jsonStringifyObj fs

end

/-- Length of the JSON serialisation (`0` when the value does not
serialise, matching the falsy `serialized && …` guard in `capResult`). -/
def jsonLen (v : Val) : Nat :=
  match jsonStringifyVal v with
  | none => 0
  | some s => s.length

/-! ## caps.ts -/

/-- Max characters returned from execInTab before truncation. -/
def EXEC_RESULT_CAP : Nat := 100000

/-- Maximum RLM loop iterations per run. -/
def MAX_ITERATIONS : Nat := 25

/-- Maximum sub-LLM calls per run. -/
def MAX_SUB_CALLS : Nat := 50

/-- Maximum consecutive iterations with no code before bailing. -/
def MAX_NO_CODE_CONTINUATIONS : Nat := 3

/-- Token estimation: ~4 chars per token. -/
def CHARS_PER_TOKEN : Nat := 4

/-- Token budget for action history section. -/
def HISTORY_TOKEN_BUDGET : Nat := 8000

/-- Token budget trigger for compaction (80% of budget; `8000 * 0.8` is the
exact float `6400`). -/
def HISTORY_COMPACTION_THRESHOLD : Nat := 6400

/-- Max preview chars in metadata summaries. -/
def PREVIEW_MAX_CHARS : Nat := 400

/-- Estimate token count from character length: `Math.ceil(len / 4)`. -/
def estimateTokens (text : String) : Nat :=
  (text.length + CHARS_PER_TOKEN - 1) / CHARS_PER_TOKEN

/-- The `{__truncated: true, originalLength, data}` sentinel of `capResult`. -/
def truncSentinel (originalLength : Nat) (data : Val) : Val :=
  .obj [("__truncated", .bool true), ("originalLength", .num originalLength), ("data", data)]

/-- Data payload kept by `capResult` on overflow.  For a string result the
source keeps `result.slice(0, maxChars)`.  Otherwise it tries
`JSON.parse(serialized.slice(0, maxChars))` and falls back to the sliced
string: a proper prefix of a compact `JSON.stringify` of an object or
array is never itself valid JSON (the closing bracket of the top-level
value is the final character), and no other value class reaches the cap in
JS (numbers and booleans serialise to a handful of characters), so the
parse attempt always lands in the `catch` and the sliced serialisation is
kept. -/
def capData (result : Val) (serialized : String) (maxChars : Nat) : Val :=
  match result with
  | .str s => .str (strTake s maxChars)
  | _ => .str (strTake serialized maxChars)

/-- Translation of `capResult` from caps.ts: cap a result to the max character limit. -/
def capResult (result : Val) (maxChars : Nat) : Val :=
  match jsonStringifyVal result with
  | none => result
  | some serialized =>
    if serialized.length > maxChars then
      truncSentinel serialized.length (capData result serialized maxChars)
    else
      result

/-! ## history.ts -/

/-- One executed code block (shared/types.ts `BlockResult`). -/
structure BlockResult where
  code : String
  metadata : String
  error : Option String
deriving DecidableEq, Repr

/-- A changed tab field between snapshots (shared/types.ts `TabChange`). -/
structure TabChange where
  tabId : String
  field : String
  old : String
  new : String
deriving DecidableEq, Repr

/-- One model→execute cycle (shared/types.ts `IterationRecord`).  The
wall-clock fields `timestamp` and `durationMs` are outside the embedding:
no verified property reads them. -/
structure IterationRecord where
  number : Nat
  blocks : List BlockResult
  oneLinerSummary : String
  fullMetadata : String
  pageChanges : List TabChange
deriving DecidableEq, Repr

/-- Translation of `compactHistory` from history.ts: token-based adaptive history
compaction.  Keeps the last 3 iterations at full detail, condenses older
ones; triggers at 80% of the token budget. -/
def compactHistory (iterations : List IterationRecord) : String :=
  if iterations.length = 0 then "" else
  let fullHistory := iterations.map (fun i => i.fullMetadata)
  let fullText := String.intercalate ("\n\n") fullHistory
  let currentTokens := estimateTokens fullText
  if currentTokens ≤ HISTORY_COMPACTION_THRESHOLD then
    String.intercalate ("\n\n") fullHistory
  else
    let recentCount := min 3 iterations.length
    let recent := iterations.drop (iterations.length - recentCount)
    let older := iterations.take (iterations.length - recentCount)
    if older.length = 0 then
      String.intercalate ("\n\n") (recent.map (fun i => i.fullMetadata))
    else
      let condensed := String.intercalate (". ")
        (older.map (fun i => "Iter " ++ toString i.number ++ ": " ++ i.oneLinerSummary))
      let summary := "## Earlier iterations (condensed)\n" ++ condensed
      let recentFull := String.intercalate ("\n\n") (recent.map (fun i => i.fullMetadata))
      let combined := summary ++ "\n\n" ++ recentFull
      if estimateTokens combined > HISTORY_TOKEN_BUDGET then
        let maxCondensedChars : Int :=
          ((HISTORY_TOKEN_BUDGET : Int) - (estimateTokens recentFull : Int)) * 4
        let keep : Nat := (max (200 : Int) maxCondensedChars).toNat
        let truncatedSummary :=
          "## Earlier iterations (condensed)\n" ++ strTake condensed keep ++ "..."
        truncatedSummary ++ "\n\n" ++ recentFull
      else combined

/-! ## parser.ts — code block extraction with fallback chain

The source uses JS regexes; the scanners below realise the exact same
match semantics character by character (leftmost match, greedy `\s*` /
`\w*` with backtracking, lazy capture, `lastIndex` resuming after each
match), as noted at each definition. -/

/-- JS `\w` word characters (`[A-Za-z0-9_]`, by character code). -/
def jsWordChar (c : Char) : Bool :=
  let n := c.toNat
  (65 ≤ n && n ≤ 90) || (97 ≤ n && n ≤ 122) || (48 ≤ n && n ≤ 57) || n = 95

/-- Matching `\s*\n` (greedy with backtracking) at the start of `l`: the
match succeeds iff the leading whitespace run of `l` contains a newline,
and, because `\s*` is greedy, it consumes through the *last* newline of
that run.  `best` carries the suffix just after the most recent newline
seen. -/
def fenceContentStartGo : List Char → Option (List Char) → Option (List Char)
  | [], best => best
  | c :: cs, best =>
    if jsWhitespace c then
      fenceContentStartGo cs (if c = '\n' then some cs else best)
    else best

/-- Start of the fenced content after the fence header (see
`fenceContentStartGo`); `none` when `\s*\n` cannot match here. -/
def fenceContentStart (l : List Char) : Option (List Char) :=
  fenceContentStartGo l none

/-- Lazy capture `([\s\S]*?)` up to the next literal ` ``` `:
returns the captured characters and the suffix after the closing fence,
or `none` when no closing fence exists (the regex match then fails). -/
def splitAtTripleTickGo (acc : List Char) : List Char → Option (List Char × List Char)
  | [] => none
  | c :: cs =>
    if ['`', '`', '`'].isPrefixOf (c :: cs) then
      some (acc.reverse, (c :: cs).drop 3)
    else
      splitAtTripleTickGo (c :: acc) cs

/-- Lazy capture up to the next ` ``` ` (see `splitAtTripleTickGo`). -/
def splitAtTripleTick (l : List Char) : Option (List Char × List Char) :=
  splitAtTripleTickGo [] l

/-- Repeated-`exec` scan of `` new RegExp('```' + tag + '\\s*\\n([\s\S]*?)```', 'g') ``:
at each position, if the opener matches and a closing fence follows, the
capture is recorded and scanning resumes after the closing fence
(`lastIndex`); otherwise scanning advances one character, exactly as the
regex engine retries at the next start position.  `fuel` only bounds the
recursion: every step strictly shrinks the remaining input, so
`fuel = length + 1` never runs out. -/
def scanFencedAux (opener : List Char) : Nat → List Char → List (List Char)
  | 0, _ => []
  | _ + 1, [] => []
  | fuel + 1, c :: cs =>
    if opener.isPrefixOf (c :: cs) then
      match fenceContentStart ((c :: cs).drop opener.length) with
      | none => scanFencedAux opener fuel cs
      | some content =>
        match splitAtTripleTick content with
        | none => scanFencedAux opener fuel cs
        | some (cap, rest) => cap :: scanFencedAux opener fuel rest
    else
      scanFencedAux opener fuel cs

/-- Translation of `extractFenced` from parser.ts: extract fenced code blocks with a
specific tag, trimmed, keeping the truthy (non-empty) ones. -/
def extractFenced (response : String) (tag : String) : List String :=
  let raw := scanFencedAux ('`' :: '`' :: '`' :: tag.data)
    (response.data.length + 1) response.data
  (raw.map (fun cap => jsTrim (String.mk cap))).filter (fun t => t ≠ "")

/-- One `exec` step of ``/```(?:\w*)\s*\n([\s\S]*?)```/`` at a position
that starts with ` ``` `: greedy `\w*` consumes the maximal word run (word
characters and whitespace are disjoint, so no backtracking between the
two classes is possible), then `\s*\n` and the lazy capture as above. -/
def anyFenceHere (l : List Char) : Option (List Char × List Char) :=
  let afterTicks := l.drop 3
  let afterTag := afterTicks.dropWhile jsWordChar
  match fenceContentStart afterTag with
  | none => none
  | some content => splitAtTripleTick content

/-- Repeated-`exec` scan for `extractAnyFenced` (any-tag fences). -/
def scanAnyFencedAux : Nat → List Char → List (List Char)
  | 0, _ => []
  | _ + 1, [] => []
  | fuel + 1, c :: cs =>
    if ['`', '`', '`'].isPrefixOf (c :: cs) then
      match anyFenceHere (c :: cs) with
      | none => scanAnyFencedAux fuel cs
      | some (cap, rest) => cap :: scanAnyFencedAux fuel rest
    else
      scanAnyFencedAux fuel cs

/-- Translation of `extractAnyFenced` from parser.ts: extract any fenced code block
(```js, ```javascript, ``` …), trimmed and non-empty. -/
def extractAnyFenced (response : String) : List String :=
  let raw := scanAnyFencedAux (response.data.length + 1) response.data
  (raw.map (fun cap => jsTrim (String.mk cap))).filter (fun t => t ≠ "")

/-! ### JSON.parse

A strict JSON parser producing `Val`, used by `extractFromToolCallJSON`.
Numbers: the JSON grammar (optional sign, integer part, optional fraction
and exponent) is accepted exactly, but the resulting value keeps only the
integer part (a JS engine would produce a double; no verified property
reads a fractional number, only the success or failure of the parse and
string-valued fields matter here).  `fuel` bounds recursion depth through
nested values; each recursive call consumes at least one character, so
`length + 1` fuel is never exhausted. -/

/-- JSON structural whitespace. -/
def jsonWs (c : Char) : Bool :=
  c = ' ' || c = '\t' || c = '\n' || c = '\r'

/-- Value of a hex digit, by character code (digits, then the two letter
ranges with their offsets 87 and 55 into the code space). -/
def hexVal (c : Char) : Option Nat :=
  let n := c.toNat
  if 48 ≤ n && n ≤ 57 then some (n - 48)
  else if 97 ≤ n && n ≤ 102 then some (n - 87)
  else if 65 ≤ n && n ≤ 70 then some (n - 55)
  else none

/-- Decimal digit test, by character code. -/
def isDigit (c : Char) : Bool :=
  48 ≤ c.toNat && c.toNat ≤ 57

/-- Parse the body of a JSON string literal after the opening quote. -/
def parseJsonString (acc : List Char) : List Char → Option (String × List Char)
  | [] => none
  | c :: cs =>
    if c = '"' then some (String.mk acc.reverse, cs)
    else if c = '\\' then
      match cs with
      | [] => none
      | e :: cs' =>
        if e = '"' then parseJsonString ('"' :: acc) cs'
        else if e = '\\' then parseJsonString ('\\' :: acc) cs'
        else if e = '/' then parseJsonString ('/' :: acc) cs'
        else if e = 'b' then parseJsonString ('\x08' :: acc) cs'
        else if e = 'f' then parseJsonString ('\x0c' :: acc) cs'
        else if e = 'n' then parseJsonString ('\n' :: acc) cs'
        else if e = 'r' then parseJsonString ('\r' :: acc) cs'
        else if e = 't' then parseJsonString ('\t' :: acc) cs'
        else if e = 'u' then
          match cs' with
          | h1 :: h2 :: h3 :: h4 :: cs'' =>
            match hexVal h1, hexVal h2, hexVal h3, hexVal h4 with
            | some a, some b, some c2, some d =>
              let n := ((a * 16 + b) * 16 + c2) * 16 + d
              if h : n.isValidChar then
                parseJsonString (Char.ofNatAux n h :: acc) cs''
              else
                -- lone surrogate half: JS keeps the code unit; model it
                -- with the replacement character (only its presence, never
                -- its identity, can matter to the verified properties)
                parseJsonString (Char.ofNat 65533 :: acc) cs''
            | _, _, _, _ => none
          | _ => none
        else none
    else if c.toNat < 32 then none
    else parseJsonString (c :: acc) cs

/-- Parse a run of decimal digits (at least one). -/
def parseDigits (acc : Nat) : List Char → Option (Nat × List Char)
  | [] => some (acc, [])
  | c :: cs =>
    if isDigit c then parseDigits (acc * 10 + (c.toNat - '0'.toNat)) cs
    else some (acc, c :: cs)

/-- Parse a JSON number after an optional leading minus has been consumed;
returns its integer part. -/
def parseJsonNumberBody : List Char → Option (Nat × List Char)
  | [] => none
  | c :: cs =>
    if c = '0' then
      some (0, cs)
    else if isDigit c then
      parseDigits (c.toNat - '0'.toNat) cs
    else none

/-- Consume an optional fraction part `.[0-9]+`. -/
def skipFraction : List Char → Option (List Char)
  | '.' :: c :: cs =>
    if isDigit c then some ((c :: cs).dropWhile isDigit) else none
  | '.' :: [] => none
  | l => some l

/-- Consume an optional exponent part `[eE][+-]?[0-9]+`. -/
def skipExponent : List Char → Option (List Char)
  | c :: cs =>
    if c = 'e' || c = 'E' then
      let afterSign :=
        match cs with
        | s :: rest => if s = '+' || s = '-' then rest else cs
        | [] => cs
      match afterSign with
      | d :: _ =>
        if isDigit d then some (afterSign.dropWhile isDigit) else none
      | [] => none
    else some (c :: cs)
  | [] => some []

mutual

/-- Parse one JSON value (leading whitespace not consumed here). -/
def parseJsonValue : Nat → List Char → Option (Val × List Char)
  | 0, _ => none
  | _ + 1, [] => none
  | fuel + 1, c :: cs =>
    if c = '"' then
      match parseJsonString [] cs with
      | some (s, rest) => some (.str s, rest)
      | none => none
    else if c = '\x7b' then
      parseJsonObject fuel [] (cs.dropWhile jsonWs)
    else if c = '[' then
      parseJsonArray fuel [] (cs.dropWhile jsonWs)
    else if c = 't' then
      if ['r', 'u', 'e'].isPrefixOf cs then some (.bool true, cs.drop 3) else none
    else if c = 'f' then
      if ['a', 'l', 's', 'e'].isPrefixOf cs then some (.bool false, cs.drop 4) else none
    else if c = 'n' then
      if ['u', 'l', 'l'].isPrefixOf cs then some (.null, cs.drop 3) else none
    else if c = '-' then
      match parseJsonNumberBody cs with
      | some (n, rest) =>
        match skipFraction rest with
        | some rest2 =>
          match skipExponent rest2 with
          | some rest3 => some (.num (-(n : Int)), rest3)
          | none => none
        | none => none
      | none => none
    else if isDigit c then
      match parseJsonNumberBody (c :: cs) with
      | some (n, rest) =>
        match skipFraction rest with
        | some rest2 =>
          match skipExponent rest2 with
          | some rest3 => some (.num (n : Int), rest3)
          | none => none
        | none => none
      | none => none
    else none

/-- Parse object members after `{` (whitespace already skipped); `acc`
holds parsed fields in order.  A duplicate key overwrites the earlier
binding, as JS property assignment does. -/
def parseJsonObject : Nat → List (String × Val) → List Char → Option (Val × List Char)
  | _, acc, '\x7d' :: cs => some (.obj acc, cs)
  | 0, _, _ => none
  | fuel + 1, acc, l =>
    match l with
    | '"' :: cs =>
      match parseJsonString [] cs with
      | some (k, rest) =>
        match rest.dropWhile jsonWs with
        | ':' :: rest2 =>
          match parseJsonValue fuel (rest2.dropWhile jsonWs) with
          | some (v, rest3) =>
            let acc' := (acc.filter (fun f => f.1 ≠ k)) ++ [(k, v)]
            match rest3.dropWhile jsonWs with
            | ',' :: rest4 =>
              match (rest4.dropWhile jsonWs) with
              | '"' :: _ => parseJsonObject fuel acc' (rest4.dropWhile jsonWs)
              | _ => none
            | '\x7d' :: rest4 => some (.obj acc', rest4)
            | _ => none
          | none => none
        | _ => none
      | none => none
    | _ => none

/-- Parse array elements after `[` (whitespace already skipped). -/
def parseJsonArray : Nat → List Val → List Char → Option (Val × List Char)
  | _, acc, ']' :: cs => some (.arr acc.reverse, cs)
  | 0, _, _ => none
  | fuel + 1, acc, l =>
    match parseJsonValue fuel l with
    | some (v, rest) =>
      match rest.dropWhile jsonWs with
      | ',' :: rest2 =>
        match rest2.dropWhile jsonWs with
        | ']' :: _ => none
        | rest3 => parseJsonArray fuel (v :: acc) rest3
      | ']' :: rest2 => some (.arr (v :: acc).reverse, rest2)
      | _ => none
    | none => none

end

/-- Model of `JSON.parse`: whole-string parse; trailing non-whitespace characters
make the parse fail (throw). -/
def jsonParse (s : String) : Option Val :=
  let l := s.data.dropWhile jsonWs
  match parseJsonValue (s.data.length + 1) l with
  | some (v, rest) =>
    if (rest.dropWhile jsonWs).isEmpty then some v else none
  | none => none

/-! ### extractFromToolCallJSON -/

mutual

/-- JS string coercion (template-literal / `String(v)` semantics) of a
modelled value. -/
def jsToDisplay : Val → String
  | .null => "null"
  | .undef => "undefined"
  | .bool b => if b then "true" else "false"
  | .num n => toString n
  | .str s => s
  | .arr xs => String.intercalate ("," ) (jsToDisplayArr xs)
  | .obj _ => "[object Object]"

/-- Array elements under JS `Array.prototype.toString`: `null` and
`undefined` render as the empty string. -/
def jsToDisplayArr : List Val → List String
  | [] => []
  | .null :: xs => "" :: jsToDisplayArr xs
  | .undef :: xs => "" :: jsToDisplayArr xs
  | x :: xs => jsToDisplay x :: jsToDisplayArr xs

end

/-- After a position, skip `\s*` and require character `c` next (the
greedy `\s*` can only stop where `c` — never a whitespace character —
appears, i.e. at the end of the whitespace run). Returns the suffix after
`c`. -/
def expectAfterWs (c : Char) (l : List Char) : Option (List Char) :=
  match l.dropWhile jsWhitespace with
  | d :: rest => if d = c then some rest else none
  | [] => none

/-- Lazy `([\s\S]*?)"\s*\}` scan: starting after the opening quote, find
the first quote that is followed by `\s*\}`; returns the suffix after that
`}`.  A quote whose tail fails the check is swallowed by the lazy star and
scanning continues. -/
def scanCloseQuote : List Char → Option (List Char)
  | [] => none
  | c :: rest =>
    if c = '"' then
      match expectAfterWs '\x7d' rest with
      | some after => some after
      | none => scanCloseQuote rest
    else scanCloseQuote rest

/-- All suffixes of `l` paired with their start index. -/
def suffixesWithIndex (l : List Char) : List (Nat × List Char) :=
  (List.range (l.length + 1)).map (fun i => (i, l.drop i))

/-- First `some` produced by `f` over a list. -/
def firstSome {α β : Type} (f : α → Option β) : List α → Option β
  | [] => none
  | a :: rest =>
    match f a with
    | some b => some b
    | none => firstSome f rest

/-- The characters of the literal `"code"` (quotes included). -/
def codeKeyLit : List Char := ['"', 'c', 'o', 'd', 'e', '"']

/-- Try to complete `/\{[\s\S]*"code"\s*:\s*"[\s\S]*?"\s*\}/` at a suffix
that starts with `{`: the greedy `[\s\S]*` tries the *latest* `"code"`
occurrence first and backtracks towards earlier ones; for a fixed
occurrence the rest of the pattern is matched as in `expectAfterWs` /
`scanCloseQuote`.  Returns the length of the whole match. -/
def tryBraceMatch (braceSuf : List Char) : Option Nat :=
  let body := braceSuf.drop 1
  let cands := (suffixesWithIndex body).filter (fun p => codeKeyLit.isPrefixOf p.2)
  firstSome
    (fun p =>
      (expectAfterWs ':' (p.2.drop 6)).bind (fun r1 =>
        (expectAfterWs '"' r1).bind (fun r2 =>
          (scanCloseQuote r2).map (fun after => braceSuf.length - after.length))))
    cands.reverse

/-- Leftmost match of the embedded-JSON regex: the engine tries each start
position in order; only positions holding `{` can start a match. -/
def findEmbeddedJson : List Char → Option (List Char)
  | [] => none
  | c :: cs =>
    if c = '\x7b' then
      match tryBraceMatch (c :: cs) with
      | some len => some ((c :: cs).take len)
      | none => findEmbeddedJson cs
    else findEmbeddedJson cs

/-- The entry a truthy non-string `parsed.code` contributes in the
embedded-JSON fallback.  The source pushes the raw value into a `string[]`
(a type hole); every later consumer coerces it to a string, which the
embedding performs here. -/
def codeFieldEntry : Val → String
  | .str s => s
  | v => jsToDisplay v

/-- Translation of `extractFromToolCallJSON` from parser.ts: whole-text `JSON.parse` with
a truthy *string* `code` field first (a `null` parse result makes the
property access throw into the same `catch` as a parse error), then the
embedded-JSON regex fallback, whose `if (parsed.code)` guard checks
truthiness only. -/
def extractFromToolCallJSON (response : String) : List String :=
  let direct :=
    match jsonParse (jsTrim response) with
    | some (.obj fs) =>
      match lookupField fs ("code") with
      | some (.str s) => if s ≠ "" then some s else none
      | _ => none
    | _ => none
  match direct with
  | some s => [s]
  | none =>
    match findEmbeddedJson response.data with
    | some matched =>
      match jsonParse (String.mk matched) with
      | some (.obj fs) =>
        match lookupField fs ("code") with
        | some v => if jsTruthy v then [codeFieldEntry v] else []
        | none => []
      | _ => []
    | none => []

/-! ### extractBareCode -/

/-- Keyword starters of `/^(const |let |var |await |return |if |for |while
|try |catch |function |class |env\.|log\(|setFinal\(|\/\/)/`. -/
def bareCodeStarters : List String :=
  ["const ", "let ", "var ", "await ", "return ", "if ", "for ", "while ",
   "try ", "catch ", "function ", "class ", "env.", "log(", "setFinal(", "//"]

/-- API identifiers of the second detection regex. -/
def bareCodeApiNames : List String :=
  ["execInTab", "openTab", "closeTab", "navigate", "switchTab", "waitForLoad",
   "getText", "getDOM", "getLinks", "getInputs", "querySelector",
   "querySelectorAll", "click", "type", "fill", "scroll", "keyPress", "hover",
   "select", "llm_query", "llm_batch", "sleep"]

/-- Test `^(name1|name2|…)\s*\(` applied to a trimmed line: one of the
identifiers, then optional whitespace, then `(`.  Alternation tries the
names in source order; because no listed name is a prefix of another
*followed by a viable continuation that this one lacks*, first-match And
order equivalence is immediate — the test is pure existence. -/
def startsWithApiCall (l : List Char) : Bool :=
  bareCodeApiNames.any (fun name =>
    name.data.isPrefixOf l &&
      (match (l.drop name.length).dropWhile jsWhitespace with
       | '(' :: _ => true
       | _ => false))

/-- Test `/^[A-Z][a-z]+ [a-z]/` applied to a trimmed line: an uppercase letter,
one or more lowercase letters, a space, a lowercase letter. -/
def looksLikeProse (l : List Char) : Bool :=
  let upper := fun (d : Char) => 65 ≤ d.toNat && d.toNat ≤ 90
  let lower := fun (d : Char) => 97 ≤ d.toNat && d.toNat ≤ 122
  match l with
  | c :: rest =>
    if upper c then
      let lowers := rest.takeWhile lower
      if lowers.length ≥ 1 then
        match rest.drop lowers.length with
        | ' ' :: d :: _ => lower d
        | _ => false
      else false
    else false
  | [] => false

/-- The per-line code test of `extractBareCode`. -/
def isCodeLine (trimmed : String) : Bool :=
  bareCodeStarters.any (fun st => st.data.isPrefixOf trimmed.data) ||
    startsWithApiCall trimmed.data

/-- The line-collecting fold of `extractBareCode`; `inCodeSection` carries
the flag across lines, `acc` the collected lines in reverse. -/
def bareCodeGo (acc : List String) (inCodeSection : Bool) : List String → List String
  | [] => acc.reverse
  | line :: rest =>
    let trimmed := jsTrim line
    if isCodeLine trimmed then
      bareCodeGo (line :: acc) true rest
    else if inCodeSection && trimmed ≠ "" && !(("#" : String).data.isPrefixOf trimmed.data)
        && !looksLikeProse trimmed.data then
      bareCodeGo (line :: acc) true rest
    else if inCodeSection && trimmed = "" then
      bareCodeGo (line :: acc) true rest
    else
      bareCodeGo acc false rest

/-- Translation of `extractBareCode` from parser.ts: detect bare code lines that look
like JavaScript; adjacent empty lines and continuations join into one
block. -/
def extractBareCode (response : String) : List String :=
  let lines := jsSplitNewline response
  let codeLines := bareCodeGo [] false lines
  let code := jsTrim (String.intercalate ("\n") codeLines)
  if code ≠ "" then [code] else []

/-- Translation of `extractCodeBlocks` from parser.ts: the fallback chain
```` ```repl ```` → any fenced → tool-call JSON → bare code; the first
non-empty result wins and an empty list is a valid outcome. -/
def extractCodeBlocks (response : String) : List String :=
  let blocks1 := extractFenced response ("repl")
  if blocks1 ≠ [] then blocks1 else
  let blocks2 := extractAnyFenced response
  if blocks2 ≠ [] then blocks2 else
  let blocks3 := extractFromToolCallJSON response
  if blocks3 ≠ [] then blocks3 else
  extractBareCode response

/-! ## REPLRuntime.execute and the metadata summaries of the engine -/

/-- Outcome of evaluating a wrapped code block inside the isolate (the
uninterpreted JS execution, including its hoisting preprocessing, is
abstracted; only what `execute` does with the outcome is modelled). -/
inductive EvalOutcome where
  | ok : Val → EvalOutcome
  | thrown : String → Option String → EvalOutcome

/-- The `{__rlm_error: true, message, stack}` sentinel.  `err.stack?` may
be absent, in which case the field holds `undefined`. -/
def rlmErrorSentinel (message : String) (stack : Option String) : Val :=
  .obj [("__rlm_error", .bool true), ("message", .str message),
        ("stack", match stack with | some s => .str (strTake s 500) | none => .undef)]

/-- Translation of `REPLRuntime.execute`: on success the result is capped
(`capResult`); a throw is captured as the `__rlm_error` sentinel with the
first 500 characters of the stack — it is never re-raised. -/
def replExecute : EvalOutcome → Val
  | .ok v => capResult v EXEC_RESULT_CAP
  | .thrown message stack => rlmErrorSentinel message stack

/-- JS `typeof` of a modelled value. -/
def jsTypeof : Val → String
  | .null => "object"
  | .undef => "undefined"
  | .bool _ => "boolean"
  | .num _ => "number"
  | .str _ => "string"
  | .arr _ => "object"
  | .obj _ => "object"

/-- Translation of `RLMEngine.describeType`: concise type description. -/
def describeType : Val → String
  | .null => "null"
  | .undef => "undefined"
  | .arr [] => "Array<unknown>(0)"
  | .arr (x :: xs) =>
    "Array<" ++ describeType x ++ ">(" ++ toString (xs.length + 1) ++ ")"
  | .obj fs => "Object(" ++ toString fs.length ++ " keys)"
  | v => jsTypeof v

/-- Translation of `RLMEngine.describeObjectSchema`: schema of an object (for `null` the
source returns `typeof null`, i.e. `"object"`). -/
def describeObjectSchema : Val → String
  | .null => "object"
  | .undef => "undefined"
  | .bool _ => "boolean"
  | .num _ => "number"
  | .str _ => "string"
  | .arr [] => "Array<unknown>"
  | .arr (x :: _) => "Array<" ++ describeType x ++ ">"
  | .obj fs =>
    let fields := fs.map (fun kv =>
      let t := describeType kv.2
      let preview :=
        match kv.2 with
        | .str s => " \"" ++ strTake s 40 ++ (if s.length > 40 then "..." else "") ++ "\""
        | .num n => " " ++ toString n
        | .bool b => " " ++ (if b then "true" else "false")
        | _ => ""
      kv.1 ++ ": " ++ t ++ preview)
    "\x7b " ++ String.intercalate (", ") fields ++ " \x7d"

/-- Display of the `message` / `stack` / `originalLength` / `data` fields
inside template literals (JS string coercion of the field value;
`undefined` for a missing key). -/
def fieldDisplay (fs : List (String × Val)) (k : String) : String :=
  jsToDisplay ((lookupField fs k).getD .undef)

/-- Translation of `RLMEngine.summarizeResult` (context.ts lines 672–710): result-only
summary used for the `code-result` event.  Branch order follows the
source: `undefined`, `null`, `__rlm_error` sentinel, `__truncated`
sentinel, array, object, long string, primitive.  In the sentinel
branches the source calls `.slice` on the raw field values; every
sentinel the REPL produces carries strings there, which the display
coercion makes explicit. -/
def summarizeResult (result : Val) : String :=
  match result with
  | .undef => "void"
  | .null => "null"
  | .obj fs =>
    if isTruthyField fs ("__rlm_error") then
      "ERROR — " ++ fieldDisplay fs ("message") ++
        (if isTruthyField fs ("stack") then
          "\n  Stack: " ++ strTake (fieldDisplay fs ("stack")) 300
         else "")
    else if isTruthyField fs ("__truncated") then
      "TRUNCATED (original " ++ fieldDisplay fs ("originalLength") ++
        " chars). Use a more specific selector.\nPreview: " ++
        strTake (fieldDisplay fs ("data")) PREVIEW_MAX_CHARS
    else
      let str := (jsonStringifyVal result).getD ("")
      let size := str.length
      "Object (" ++ toString fs.length ++ " keys, " ++ toString size ++ " chars)" ++
        "\nSchema: " ++ describeObjectSchema result ++
        "\nPreview: " ++ strTake str PREVIEW_MAX_CHARS ++
        (if size > PREVIEW_MAX_CHARS then "..." else "")
  | .arr xs =>
    let str := (jsonStringifyVal result).getD ("")
    let size := str.length
    let elemType := match xs with | [] => "empty" | x :: _ => describeType x
    let base := "Array<" ++ elemType ++ "> (" ++ toString xs.length ++ " items, " ++
      toString size ++ " chars)"
    let withSchema :=
      match xs with
      | .arr ys :: _ => base ++ "\nSchema: " ++ describeObjectSchema (.arr ys)
      | .obj gs :: _ => base ++ "\nSchema: " ++ describeObjectSchema (.obj gs)
      | _ => base
    let preview := (jsonStringifyVal (.arr (xs.take 2))).getD ("")
    withSchema ++ "\nPreview: " ++ strTake preview PREVIEW_MAX_CHARS ++
      (if xs.length > 2 then "\n... and " ++ toString (xs.length - 2) ++ " more" else "")
  | .str s =>
    if s.length > 300 then
      "string (" ++ toString s.length ++ " chars)\nPreview: \"" ++ strTake s 250 ++ "...\""
    else
      "string = " ++ strTake ((jsonStringifyVal (.str s)).getD ("")) 300
  | v =>
    jsTypeof v ++ " = " ++ strTake ((jsonStringifyVal v).getD ("")) 300

/-- Translation of `RLMEngine.summarize`: full metadata (code + result) kept in the
iteration record for the LLM history. -/
def summarize (code : String) (result : Val) : String :=
  "Code:\n  " ++ String.intercalate ("\n  ") (jsSplitNewline code) ++
    "\nResult: " ++ summarizeResult result

/-- Truthiness of a `BlockResult.error` (`undefined` or the empty string
are falsy). -/
def blockErrorTruthy : Option String → Bool
  | none => false
  | some m => m ≠ ""

/-- One part of `RLMEngine.summarizeIntent`: keyword scan over the
code, with the error suffix when the block carries a truthy error. -/
def intentPart (b : BlockResult) : String :=
  let code := b.code
  let base :=
    if strIncludes code ("setFinal") then "delivered final result"
    else if strIncludes code ("execInTab") then "queried tab DOM"
    else if strIncludes code ("openTab") then "opened new tab"
    else if strIncludes code ("navigate") then "navigated tab"
    else if strIncludes code ("click") then "clicked element"
    else if strIncludes code ("type(") then "typed into input"
    else if strIncludes code ("llm_query") then "sub-LLM call"
    else if strIncludes code ("llm_batch") then "batch sub-LLM calls"
    else if strIncludes code ("getText") then "extracted text"
    else if strIncludes code ("getLinks") then "extracted links"
    else if strIncludes code ("waitForLoad") then "waited for page load"
    else "executed code"
  match b.error with
  | some m => if m ≠ "" then base ++ " (ERROR: " ++ strTake m 60 ++ ")" else base
  | none => base

/-- Translation of `RLMEngine.summarizeIntent`: one-liner progress summary of the blocks of an
iteration. -/
def summarizeIntent (blocks : List BlockResult) : String :=
  String.intercalate (", ") (blocks.map intentPart)

/-! ## RLMEngine.runTask — the main Algorithm 1 loop

The loop controller is translated from `RLMEngine.runTask`
(context.ts lines 263–475).  External effects are oracles:

  * `script i` — the LLM stream for iteration `i` (either a transport
    error thrown by `streamCompletion`, or the streamed tokens plus the
    full response text);
  * per-block REPL behaviour — an `EvalOutcome` plus whether `setFinal`
    was called during that block (the REPL resets its `finalCalled` flag
    at the start of every `execute`, so per-block reporting is exact; the
    reported value is the JSON-round-tripped value `setFinal` stored);
  * `changes i` — the tab diff read at the top of iteration `i`;
  * `ctx i` — the content of the single per-iteration user message built
    by `buildMessages` (its `compactHistory` component is verified
    separately);
  * `envMeta i` — the serialised environment metadata emitted after the
    blocks of iteration `i`.

Cancellation is cooperative; the embedding exposes the loop-top
checkpoint: `cancelAt = some k` means `cancel()` runs just before the
top-of-loop check of iteration `k`.  `cancel()` itself always emits a
`complete` event (context.ts lines 766–773) and the aborted loop then
emits its own.  `stream-token` events are included; trace-file writes and
UI delivery are outside the embedding. -/

/-- Task status (shared/types.ts). -/
inductive Status where
  | idle | running | complete | cancelled | error
deriving DecidableEq, Repr

/-- A conversation message. -/
inductive Msg where
  | user : String → Msg
  | assistant : String → Msg
deriving DecidableEq, Repr

/-- Engine events (the IPC channels of §6 of the design). -/
inductive Event where
  | iterationStart : Nat → String → Event
  | pageChanges : List TabChange → Event
  | streamToken : String → Nat → Event
  | codeGenerated : String → Nat → Event
  | codeResult : String → Nat → Option String → Event
  | envUpdate : String → Event
  | error : String → Event
  | complete : Val → Event

/-- Per-iteration LLM outcome. -/
inductive IterInput where
  | llmError : String → IterInput
  | response : List String → String → (Nat → EvalOutcome × Option Val) → IterInput

/-- The oracles a task run consumes. -/
structure TaskOracle where
  goal : String
  script : Nat → IterInput
  changes : Nat → List TabChange
  ctx : Nat → String
  envMeta : Nat → String

/-- Translation of `getContinuationPrompt` from context.ts. -/
def getContinuationPrompt (iteration : Nat) : String :=
  if iteration = 0 then
    "You described your plan but did not write any code. Write the code now in a ```repl block to begin."
  else
    "Continue — write code in a ```repl block to proceed with the task, or call setFinal(value) to deliver your response to the user."

/-- Result of the block-execution inner loop. -/
structure BlockLoopOut where
  events : List Event
  blocks : List BlockResult
  finalVal : Option Val

/-- The per-block loop of `runTask` (context.ts lines 400–418): emit
`code-generated`, execute, summarize, emit `code-result`, and stop early
when the REPL reports `setFinal` was called. -/
def runBlocks (execs : Nat → EvalOutcome × Option Val) : List String → Nat → BlockLoopOut
  | [], _ => ⟨[], [], none⟩
  | code :: rest, bi =>
    let step := execs bi
    let result := replExecute step.1
    let metadata := summarize code result
    let resultMeta := summarizeResult result
    let errMsg : Option String :=
      match result with
      | .obj fs => if isTruthyField fs ("__rlm_error") then some (fieldDisplay fs ("message")) else none
      | _ => none
    let br : BlockResult := ⟨code, metadata, errMsg⟩
    let evts := [Event.codeGenerated code bi, Event.codeResult resultMeta bi errMsg]
    match step.2 with
    | some v => ⟨evts, [br], some v⟩
    | none =>
      let out := runBlocks execs rest (bi + 1)
      ⟨evts ++ out.events, br :: out.blocks, out.finalVal⟩

/-- The no-code iteration record (context.ts lines 381–389). -/
def noCodeRecord (number : Nat) (pc : List TabChange) : IterationRecord :=
  ⟨number, [], "no code generated (continuation sent)",
    "## Iteration " ++ toString number ++ "\nNo code blocks generated. Sent continuation prompt.",
    pc⟩

/-- The `fullMetadata` of a code iteration (context.ts lines 427–441):
`Block N:` headers when more than one block ran. -/
def iterationFullMetadata (number : Nat) (blocks : List BlockResult) : String :=
  let fullMeta := String.intercalate ("\n\n")
    ((blocks.enum).map (fun bi =>
      (if blocks.length > 1 then "Block " ++ toString (bi.1 + 1) ++ ":\n" else "") ++ bi.2.metadata))
  "## Iteration " ++ toString number ++ " (" ++ toString blocks.length ++
    " code block" ++ (if blocks.length > 1 then "s" else "") ++ ")\n" ++ fullMeta

/-- The iteration record of a code iteration. -/
def codeRecord (number : Nat) (blocks : List BlockResult) (pc : List TabChange) : IterationRecord :=
  ⟨number, blocks, summarizeIntent blocks, iterationFullMetadata number blocks, pc⟩

/-- The `complete` payload when the loop exits through the iteration cap. -/
def capCompleteMessage (maxIter : Nat) : String :=
  "Reached maximum iterations (" ++ toString maxIter ++
    "). Partial results may be available in the activity log. Check REPL variables for intermediate data."

/-- The `complete` payload of `cancel()` itself and of the abort paths. -/
def cancelCompleteMessage : String := "Task cancelled by user."

/-- The `complete` payload of the loop-top abort check. -/
def cancelLoopMessage : String :=
  "Task cancelled by user. Partial results may be available in the activity log."

/-- What a task run produces. -/
structure EngineResult where
  events : List Event
  status : Status
  history : List Msg
  records : List IterationRecord

/-- The main loop, recursing on the remaining iteration budget
(`remaining = maxIter - iteration`; the cap exit at `0` reports
`iteration` as the cap, which equals `maxIter` there).  Faithful to
context.ts lines 302–465; the returned events are everything emitted from
this point on. -/
def runLoop (o : TaskOracle) (cancelAt : Option Nat) :
    Nat → Nat → Nat → List Msg → List IterationRecord → EngineResult
  | 0, iteration, _, hist, recs =>
    ⟨[Event.complete (.str (capCompleteMessage iteration))], .complete, hist, recs⟩
  | remaining + 1, iteration, consecutiveNoCodes, hist, recs =>
    if cancelAt = some iteration then
      -- cancel(): abort + unconditional complete (lines 766–773), then the
      -- loop-top aborted check (lines 304–308) emits its own complete
      ⟨[Event.complete (.str cancelCompleteMessage),
        Event.complete (.str cancelLoopMessage)], .cancelled, hist, recs⟩
    else
      let headEvts := [Event.iterationStart (iteration + 1) o.goal] ++
        (if (o.changes iteration).length > 0 then [Event.pageChanges (o.changes iteration)] else [])
      let contextMessages := [Msg.user (o.ctx iteration)]
      match o.script iteration with
      | .llmError m =>
        ⟨headEvts ++ [Event.error ("LLM error: " ++ m), Event.complete .null],
          .error, hist, recs⟩
      | .response tokens text execs =>
        let tokenEvts := tokens.map (fun t => Event.streamToken t (iteration + 1))
        let codeBlocks := extractCodeBlocks text
        if codeBlocks = [] then
          let hist' := hist ++ contextMessages ++
            [Msg.assistant text, Msg.user (getContinuationPrompt iteration)]
          if consecutiveNoCodes + 1 ≥ MAX_NO_CODE_CONTINUATIONS then
            ⟨headEvts ++ tokenEvts ++
              [Event.error ("Model failed to produce code after multiple attempts."),
               Event.complete .null], .error, hist', recs⟩
          else
            let out := runLoop o cancelAt remaining (iteration + 1) (consecutiveNoCodes + 1)
              hist' (recs ++ [noCodeRecord (iteration + 1) (o.changes iteration)])
            ⟨headEvts ++ tokenEvts ++ out.events, out.status, out.history, out.records⟩
        else
          let bl := runBlocks execs codeBlocks 0
          let iterEvts := headEvts ++ tokenEvts ++ bl.events ++ [Event.envUpdate (o.envMeta iteration)]
          let recs' := recs ++ [codeRecord (iteration + 1) bl.blocks (o.changes iteration)]
          let hist' := hist ++ contextMessages ++ [Msg.assistant text]
          match bl.finalVal with
          | some v => ⟨iterEvts ++ [Event.complete v], .complete, hist', recs'⟩
          | none =>
            let out := runLoop o cancelAt remaining (iteration + 1) 0 hist' recs'
            ⟨iterEvts ++ out.events, out.status, out.history, out.records⟩

/-- Translation of `RLMEngine.runTask` for a fresh engine: start at iteration 0 with no
consecutive no-code responses, empty conversation history and tracker. -/
def runTask (o : TaskOracle) (maxIter : Nat) (cancelAt : Option Nat) : EngineResult :=
  runLoop o cancelAt maxIter 0 0 [] []

/-! ## RLMEngine.handleSubCall — the sub-agent mini loop

Translated from context.ts lines 477–654.  The LLM calls of the sub-agent and
REPL block behaviour are oracles as in the main loop; `initialize` of the
fresh sub-REPL is the only awaited step inside the `try` body that can
reject, so it is passed as an `Except`.  The surrounding `try/catch`
converts any rejection into a returned `[SUB-CALL ERROR] …` string;
`Except` models the promise, with `.error` meaning a rejected promise —
which `handleSubCall` never produces. -/

/-- Per-sub-iteration LLM outcome (the sub loop uses the non-streaming
`complete` call). -/
inductive SubIterInput where
  | llmError : String → SubIterInput
  | response : String → (Nat → EvalOutcome × Option Val) → SubIterInput

/-- Constant `MAX_SUB_ITERATIONS` (context.ts line 487). -/
def MAX_SUB_ITERATIONS : Nat := 10

/-- Model of `this.config.maxSubCalls || MAX_SUB_CALLS`: the JS `||` default
treats a configured `0` (and an absent value) as falsy and substitutes
the default `50`. -/
def effectiveMaxSubCalls : Option Nat → Nat
  | none => MAX_SUB_CALLS
  | some n => if n = 0 then MAX_SUB_CALLS else n

/-- The sub-agent iteration loop (context.ts lines 535–634), recursing on
the remaining budget; `i = MAX_SUB_ITERATIONS - remaining` is the current
index (a failed LLM attempt consumes an iteration: the `catch` path ends
in `continue`).  `llmErrors` counts consecutive LLM failures and resets on
success; `consecutiveNoCodes` counts consecutive no-code responses. -/
def subLoop (subScript : Nat → SubIterInput) (aborted : Bool) :
    Nat → Nat → Nat → Nat → String
  | 0, _, _, _ =>
    "[SUB-CALL ERROR] Sub-agent reached " ++ toString MAX_SUB_ITERATIONS ++
      " iterations without calling setFinal(). It may have gotten stuck. Try rephrasing or simplifying the sub-task."
  | remaining + 1, i, llmErrors, consecutiveNoCodes =>
    if aborted then
      "[SUB-CALL CANCELLED] Task cancelled by user."
    else
      match subScript i with
      | .llmError m =>
        if llmErrors + 1 ≥ 3 then
          "[SUB-CALL ERROR] LLM failed 3 consecutive times: " ++ m
        else
          subLoop subScript aborted remaining (i + 1) (llmErrors + 1) consecutiveNoCodes
      | .response text execs =>
        let codeBlocks := extractCodeBlocks text
        if codeBlocks = [] then
          if consecutiveNoCodes + 1 ≥ MAX_NO_CODE_CONTINUATIONS then
            text
          else
            subLoop subScript aborted remaining (i + 1) 0 (consecutiveNoCodes + 1)
        else
          let bl := runBlocks execs codeBlocks 0
          match bl.finalVal with
          | some v =>
            (match v with
             | .str s => s
             | _ => (jsonStringifyVal v).getD ("undefined"))
          | none => subLoop subScript aborted remaining (i + 1) 0 0

/-- Translation of `RLMEngine.handleSubCall` (context.ts lines 478–654): the shared
sub-call cap check precedes everything; the `try` body runs `initialize`
and the mini loop; the `catch` returns `[SUB-CALL ERROR] …` instead of
rejecting.  `subCallCount` is the engine counter at entry. -/
def handleSubCall (maxSubCalls : Option Nat) (subCallCount : Nat)
    (initResult : Except String Unit) (aborted : Bool)
    (subScript : Nat → SubIterInput) : Except String String :=
  if subCallCount ≥ effectiveMaxSubCalls maxSubCalls then
    .ok ("[SUB-CALL ERROR] Maximum sub-call limit reached.")
  else
    match initResult with
    | .error e => .ok ("[SUB-CALL ERROR] " ++ e)
    | .ok _ => .ok (subLoop subScript aborted MAX_SUB_ITERATIONS 0 0 0)

/-- The sub-call counter of the engine over a sequence of `handleSubCall`
entries: the counter increments only when the cap check passes
(context.ts lines 479–482). -/
def subCallCounterAfter (eff : Nat) : Nat → Nat
  | 0 => 0
  | k + 1 =>
    let c := subCallCounterAfter eff k
    if c ≥ eff then c else c + 1

/-- One element of an `llm_batch` result. -/
structure BatchEntry where
  status : String
  value : Option String
  error : Option String
deriving DecidableEq, Repr

/-- Model of the `Promise.allSettled` settlement of one sub-call promise
(context.ts lines 664–669). -/
def settleOne : Except String String → BatchEntry
  | .ok v => ⟨"fulfilled", some v, none⟩
  | .error e => ⟨"rejected", none, some e⟩

/-- Inputs of one batched sub-call (its entry counter value, REPL init
outcome and LLM script; the counter differs per element because the
concurrent calls each read-then-increment the shared counter). -/
structure SubCallInput where
  subCallCount : Nat
  initResult : Except String Unit
  subScript : Nat → SubIterInput

/-- Translation of `RLMEngine.handleSubBatch` (context.ts lines 656–670):
`Promise.allSettled` over per-prompt `handleSubCall` promises. -/
def handleSubBatch (maxSubCalls : Option Nat) (aborted : Bool)
    (inputs : List SubCallInput) : List BatchEntry :=
  inputs.map (fun inp =>
    settleOne (handleSubCall maxSubCalls inp.subCallCount inp.initResult aborted inp.subScript))

/-! ## Event classifiers and basic lemmas -/

/-- Is this a `complete` event? -/
def Event.isComplete : Event → Bool
  | .complete _ => true
  | _ => false

/-- Is this an `iteration-start` event? -/
def Event.isIterStart : Event → Bool
  | .iterationStart _ _ => true
  | _ => false

/-- Is this a `code-generated` event? -/
def Event.isCodeGen : Event → Bool
  | .codeGenerated _ _ => true
  | _ => false

/-- Is this an `error` event? -/
def Event.isErrorEvt : Event → Bool
  | .error _ => true
  | _ => false

theorem runBlocks_countP_complete (execs : Nat → EvalOutcome × Option Val)
    (bs : List String) (bi : Nat) :
    ((runBlocks execs bs bi).events).countP Event.isComplete = 0 := by
  induction bs generalizing bi with
  | nil => simp [runBlocks]
  | cons c rest ih =>
    simp only [runBlocks]
    cases h : (execs bi).2 with
    | some v => simp [h, List.countP_cons, Event.isComplete]
    | none => simp [h, List.countP_append, List.countP_cons, Event.isComplete, ih]

theorem runBlocks_countP_iterStart (execs : Nat → EvalOutcome × Option Val)
    (bs : List String) (bi : Nat) :
    ((runBlocks execs bs bi).events).countP Event.isIterStart = 0 := by
  induction bs generalizing bi with
  | nil => simp [runBlocks]
  | cons c rest ih =>
    simp only [runBlocks]
    cases h : (execs bi).2 with
    | some v => simp [h, List.countP_cons, Event.isIterStart]
    | none => simp [h, List.countP_append, List.countP_cons, Event.isIterStart, ih]

theorem runBlocks_finalVal_none (execs : Nat → EvalOutcome × Option Val)
    (bs : List String) (bi : Nat) (h : ∀ k, (execs k).2 = none) :
    (runBlocks execs bs bi).finalVal = none := by
  induction bs generalizing bi with
  | nil => simp [runBlocks]
  | cons c rest ih => simp only [runBlocks, h bi]; exact ih (bi + 1)

theorem runBlocks_countP_codeGen_none (execs : Nat → EvalOutcome × Option Val)
    (bs : List String) (bi : Nat) (h : ∀ k, (execs k).2 = none) :
    ((runBlocks execs bs bi).events).countP Event.isCodeGen = bs.length := by
  induction bs generalizing bi with
  | nil => simp [runBlocks]
  | cons c rest ih =>
    simp only [runBlocks, h bi]
    simp [List.countP_append, List.countP_cons, Event.isCodeGen, ih (bi + 1)]

theorem runBlocks_first_final (execs : Nat → EvalOutcome × Option Val)
    (bs : List String) (bi j : Nat) (x : Val) (hj : j < bs.length)
    (hfin : (execs (bi + j)).2 = some x)
    (hprev : ∀ k, k < j → (execs (bi + k)).2 = none) :
    (runBlocks execs bs bi).finalVal = some x ∧
      ((runBlocks execs bs bi).events).countP Event.isCodeGen = j + 1 := by
  induction bs generalizing bi j with
  | nil => simp at hj
  | cons c rest ih =>
    cases j with
    | zero =>
      have h0 : (execs bi).2 = some x := by simpa using hfin
      simp [runBlocks, h0, List.countP_cons, Event.isCodeGen]
    | succ j' =>
      have h0 : (execs bi).2 = none := by simpa using hprev 0 (Nat.succ_pos j')
      have hfin' : (execs (bi + 1 + j')).2 = some x := by
        have : bi + 1 + j' = bi + (j' + 1) := by omega
        rw [this]; exact hfin
      have hprev' : ∀ k, k < j' → (execs (bi + 1 + k)).2 = none := by
        intro k hk
        have : bi + 1 + k = bi + (k + 1) := by omega
        rw [this]; exact hprev (k + 1) (by omega)
      have hj' : j' < rest.length := by simpa using Nat.lt_of_succ_lt_succ hj
      obtain ⟨ih1, ih2⟩ := ih bi.succ j' hj' hfin' hprev'
      simp only [runBlocks, h0]
      constructor
      · simpa using ih1
      · simp [List.countP_append, List.countP_cons, Event.isCodeGen]
        simp only [Nat.succ_eq_add_one] at ih2
        omega

/-! ## Claim theorems -/

/-- C8: for every execution result, either the length of its JSON
serialisation is at most 100,000 characters and the value passes through
`capResult` unchanged, or it is replaced by the `{__truncated: true,
originalLength, data}` sentinel whose `originalLength` is the
serialisation length and strictly greater than 100,000. -/
theorem c8_result_cap (v : Val) :
    (jsonLen v ≤ EXEC_RESULT_CAP ∧ capResult v EXEC_RESULT_CAP = v) ∨
    (∃ d, capResult v EXEC_RESULT_CAP = truncSentinel (jsonLen v) d ∧
      jsonLen v > EXEC_RESULT_CAP) := by
  cases h : jsonStringifyVal v with
  | none =>
    left
    unfold capResult jsonLen
    rw [h]
    exact ⟨Nat.zero_le _, rfl⟩
  | some s =>
    unfold capResult jsonLen
    rw [h]
    by_cases hl : s.length > EXEC_RESULT_CAP
    · right; exact ⟨capData v s EXEC_RESULT_CAP, by simp [hl], hl⟩
    · left; exact ⟨by simpa using Nat.not_lt.mp hl, by simp [hl]⟩

/-- C9: `extractCodeBlocks` returns the result of the first strategy in
the chain (```repl fences, then any fences, then tool-call JSON with a
`code` field, then the bare-code line scan) that yields a non-empty list;
when all four yield nothing the result is the (empty) bare-code result. -/
theorem c9_extractor_chain (r : String) :
    (extractFenced r ("repl") ≠ [] ∧ extractCodeBlocks r = extractFenced r ("repl")) ∨
    (extractFenced r ("repl") = [] ∧ extractAnyFenced r ≠ [] ∧
      extractCodeBlocks r = extractAnyFenced r) ∨
    (extractFenced r ("repl") = [] ∧ extractAnyFenced r = [] ∧
      extractFromToolCallJSON r ≠ [] ∧
      extractCodeBlocks r = extractFromToolCallJSON r) ∨
    (extractFenced r ("repl") = [] ∧ extractAnyFenced r = [] ∧
      extractFromToolCallJSON r = [] ∧
      extractCodeBlocks r = extractBareCode r) := by
  unfold extractCodeBlocks
  by_cases h1 : extractFenced r ("repl") = []
  · by_cases h2 : extractAnyFenced r = []
    · by_cases h3 : extractFromToolCallJSON r = []
      · right; right; right; exact ⟨h1, h2, h3, by simp [h1, h2, h3]⟩
      · right; right; left; exact ⟨h1, h2, h3, by simp [h1, h2, h3]⟩
    · right; left; exact ⟨h1, h2, by simp [h1, h2]⟩
  · left; exact ⟨h1, by simp [h1]⟩

/-- C7 (amended): `compactHistory` returns the full concatenation
unchanged when its estimated token count is at most 80% of the
8,000-token budget; otherwise the last `min(3, total)` records appear
verbatim (as the final segment of the output).  The original claim's
bound that the compacted output never exceeds the 8,000-token budget does
not hold (see the counterexample): when the recent-tail records are
themselves large only the condensed prefix is truncated, down to a
200-character floor. -/
theorem c7_compact_history (its : List IterationRecord) :
    (estimateTokens (String.intercalate ("\n\n") (its.map (fun i => i.fullMetadata))) ≤
        HISTORY_COMPACTION_THRESHOLD →
      compactHistory its =
        String.intercalate ("\n\n") (its.map (fun i => i.fullMetadata))) ∧
    (¬ estimateTokens (String.intercalate ("\n\n") (its.map (fun i => i.fullMetadata))) ≤
        HISTORY_COMPACTION_THRESHOLD →
      ∃ pre, compactHistory its = pre ++ String.intercalate ("\n\n")
        ((its.drop (its.length - min 3 its.length)).map (fun i => i.fullMetadata))) := by
  constructor
  · intro hle
    by_cases h0 : its.length = 0
    · have he : its = [] := List.length_eq_zero.mp h0
      subst he
      simp [compactHistory, String.intercalate]
    · simp only [compactHistory, h0, if_false, hle, if_true]
  · intro hgt
    have h0 : ¬ its.length = 0 := by
      intro h
      have he : its = [] := List.length_eq_zero.mp h
      subst he
      exact hgt (by decide)
    by_cases h3 : its.length ≤ 3
    · have hmin : min 3 its.length = its.length := by omega
      have hdrop : its.length - min 3 its.length = 0 := by omega
      rw [hmin] at hdrop
      refine ⟨"", ?_⟩
      simp only [compactHistory, h0, if_false, hgt, hmin, hdrop]
      simp [String.intercalate]
    · have hmin : min 3 its.length = 3 := by omega
      have holder : ¬ (its.take (its.length - 3)).length = 0 := by
        simp only [List.length_take]
        omega
      simp only [compactHistory, h0, if_false, hgt, hmin, holder]
      by_cases hover :
          estimateTokens
            ("## Earlier iterations (condensed)\n" ++
              String.intercalate (". ")
                ((its.take (its.length - 3)).map
                  (fun i => "Iter " ++ toString i.number ++ ": " ++ i.oneLinerSummary)) ++
              "\n\n" ++
              String.intercalate ("\n\n")
                ((its.drop (its.length - 3)).map (fun i => i.fullMetadata))) >
            HISTORY_TOKEN_BUDGET
      · exact ⟨_, if_pos hover⟩
      · exact ⟨_, if_neg hover⟩


/-- A single iteration record whose metadata is 40,000 characters. -/
def bigHistoryRecord : IterationRecord :=
  ⟨1, [], "x", String.mk (List.replicate 40000 'a'), []⟩

theorem bigHistoryRecord_meta_length : bigHistoryRecord.fullMetadata.length = 40000 := by
  show (String.mk (List.replicate 40000 'a')).length = 40000
  rw [String.length]
  exact List.length_replicate 40000 'a'

theorem bigHistoryRecord_tokens : estimateTokens bigHistoryRecord.fullMetadata = 10000 := by
  rw [estimateTokens, bigHistoryRecord_meta_length]
  decide

theorem bigHistoryRecord_intercalate :
    String.intercalate ("\n\n") (List.map (fun i => i.fullMetadata) [bigHistoryRecord]) =
      bigHistoryRecord.fullMetadata := rfl

theorem compactHistory_singleton_over (r : IterationRecord)
    (h : ¬ estimateTokens r.fullMetadata ≤ HISTORY_COMPACTION_THRESHOLD) :
    compactHistory [r] = r.fullMetadata := by
  have hint : String.intercalate ("\n\n") [r.fullMetadata] = r.fullMetadata := rfl
  simp [compactHistory, hint, h]

/-- C7 counterexample: on a single 40,000-character record compaction
triggers (the estimate 10,000 exceeds the 80% threshold 6,400), yet
`compactHistory` returns the record unchanged — 10,000 estimated tokens,
beyond the 8,000-token budget the claim promises is never exceeded. -/
theorem c7_counterexample :
    ¬ (estimateTokens
        (String.intercalate ("\n\n") ([bigHistoryRecord].map (fun i => i.fullMetadata))) ≤
        HISTORY_COMPACTION_THRESHOLD) ∧
    estimateTokens (compactHistory [bigHistoryRecord]) > HISTORY_TOKEN_BUDGET := by
  have hch : compactHistory [bigHistoryRecord] = bigHistoryRecord.fullMetadata :=
    compactHistory_singleton_over bigHistoryRecord
      (by rw [bigHistoryRecord_tokens]; decide)
  constructor
  · rw [bigHistoryRecord_intercalate, bigHistoryRecord_tokens]
    decide
  · rw [hch, bigHistoryRecord_tokens]
    decide

theorem resultErrorSplit (a m : String) :
    (a ++ "\nResult: ") ++ (("ERROR — " ++ m) ++ "") =
      (a ++ "\n") ++ (("Result: ERROR") ++ (" — " ++ m)) := by
  rw [String.append_empty, String.append_assoc, String.append_assoc]
  congr 1

theorem countP_complete_streamTokens (tokens : List String) (n : Nat) :
    (tokens.map (fun t => Event.streamToken t n)).countP Event.isComplete = 0 := by
  induction tokens with
  | nil => simp
  | cons t rest ih => simp [List.countP_cons, Event.isComplete, ih]

/-- C4 (amended): a throwing evaluation makes `execute` return the
`{__rlm_error: true, message, stack: first 500 chars}` sentinel rather
than raising; the block's full metadata string *contains* `Result: ERROR`
— its result section is prefixed by it, though the string as a whole
starts with `Code:` — and the main loop records the error blocks and
continues to the next iteration instead of terminating. -/
theorem c4_error_capture (m st code : String)
    (o : TaskOracle) (r iteration noCodes : Nat) (hist : List Msg)
    (recs : List IterationRecord) (tokens : List String) (text : String)
    (execs : Nat → EvalOutcome × Option Val)
    (hscript : o.script iteration = .response tokens text execs)
    (hblocks : extractCodeBlocks text ≠ [])
    (herr : ∀ k, ∃ em es, execs k = (.thrown em es, none)) :
    replExecute (.thrown m (some st)) =
      .obj [("__rlm_error", .bool true), ("message", .str m),
            ("stack", .str (strTake st 500))] ∧
    (∃ pre post, summarize code (replExecute (.thrown m none)) =
      pre ++ (("Result: ERROR") ++ post)) ∧
    (∃ iterEvts hist2 recs2,
      (runLoop o none (r + 1) iteration noCodes hist recs).events =
        iterEvts ++ (runLoop o none r (iteration + 1) 0 hist2 recs2).events ∧
      iterEvts.countP Event.isComplete = 0 ∧
      (runLoop o none (r + 1) iteration noCodes hist recs).status =
        (runLoop o none r (iteration + 1) 0 hist2 recs2).status) := by
  refine ⟨rfl, ?_, ?_⟩
  · refine ⟨("Code:\n  " ++ String.intercalate ("\n  ") (jsSplitNewline code)) ++ "\n",
      " — " ++ m, ?_⟩
    have h : summarize code (replExecute (.thrown m none)) =
        (("Code:\n  " ++ String.intercalate ("\n  ") (jsSplitNewline code)) ++ "\nResult: ") ++
          (("ERROR — " ++ m) ++ "") := rfl
    rw [h]
    exact resultErrorSplit _ m
  · have hfv : (runBlocks execs (extractCodeBlocks text) 0).finalVal = none := by
      refine runBlocks_finalVal_none execs _ 0 (fun k => ?_)
      obtain ⟨em, es, hk⟩ := herr k
      rw [hk]
    have hstep : runLoop o none (r + 1) iteration noCodes hist recs =
        ⟨(([Event.iterationStart (iteration + 1) o.goal] ++
            (if (o.changes iteration).length > 0 then [Event.pageChanges (o.changes iteration)] else []) ++
            tokens.map (fun t => Event.streamToken t (iteration + 1)) ++
            (runBlocks execs (extractCodeBlocks text) 0).events ++
            [Event.envUpdate (o.envMeta iteration)]) ++
          (runLoop o none r (iteration + 1) 0
            (hist ++ [Msg.user (o.ctx iteration)] ++ [Msg.assistant text])
            (recs ++ [codeRecord (iteration + 1)
              (runBlocks execs (extractCodeBlocks text) 0).blocks (o.changes iteration)])).events),
         (runLoop o none r (iteration + 1) 0
            (hist ++ [Msg.user (o.ctx iteration)] ++ [Msg.assistant text])
            (recs ++ [codeRecord (iteration + 1)
              (runBlocks execs (extractCodeBlocks text) 0).blocks (o.changes iteration)])).status,
         (runLoop o none r (iteration + 1) 0
            (hist ++ [Msg.user (o.ctx iteration)] ++ [Msg.assistant text])
            (recs ++ [codeRecord (iteration + 1)
              (runBlocks execs (extractCodeBlocks text) 0).blocks (o.changes iteration)])).history,
         (runLoop o none r (iteration + 1) 0
            (hist ++ [Msg.user (o.ctx iteration)] ++ [Msg.assistant text])
            (recs ++ [codeRecord (iteration + 1)
              (runBlocks execs (extractCodeBlocks text) 0).blocks (o.changes iteration)])).records⟩ := by
      simp only [runLoop, hscript, hfv]
      simp [hblocks]
    refine ⟨([Event.iterationStart (iteration + 1) o.goal] ++
        (if (o.changes iteration).length > 0 then [Event.pageChanges (o.changes iteration)] else []) ++
        tokens.map (fun t => Event.streamToken t (iteration + 1)) ++
        (runBlocks execs (extractCodeBlocks text) 0).events ++
        [Event.envUpdate (o.envMeta iteration)]),
      (hist ++ [Msg.user (o.ctx iteration)] ++ [Msg.assistant text]),
      (recs ++ [codeRecord (iteration + 1)
        (runBlocks execs (extractCodeBlocks text) 0).blocks (o.changes iteration)]),
      ?_, ?_, ?_⟩
    · rw [hstep]
    · by_cases hpc : (o.changes iteration).length > 0
      · simp [hpc, List.countP_append, List.countP_cons, Event.isComplete,
          runBlocks_countP_complete, countP_complete_streamTokens]
      · simp [hpc, List.countP_append, List.countP_cons, Event.isComplete,
          runBlocks_countP_complete, countP_complete_streamTokens]
    · rw [hstep]

/-- C4 counterexample: the block metadata string is *not* prefixed by
`Result: ERROR` — it starts with `Code:`; the `Result: ERROR` text occurs
later in the string (second conjunct). -/
theorem c4_counterexample :
    (("Result: ERROR").data.isPrefixOf
      (summarize ("env.x = 1") (replExecute (.thrown ("boom") (some ("stack"))))).data) = false ∧
    strIncludes (summarize ("env.x = 1") (replExecute (.thrown ("boom") (some ("stack")))))
      ("Result: ERROR") = true := by
  constructor
  · decide
  · decide

/-- Oracle for the C4 witness: every iteration answers with one fenced
block whose execution throws. -/
def throwOracle : TaskOracle where
  goal := "demo"
  script := fun _ => .response [] ("```repl\nboomcode()\n```")
    (fun _ => (.thrown ("boom") (some ("st")), none))
  changes := fun _ => []
  ctx := fun _ => "ctx"
  envMeta := fun _ => "env"

theorem c4_witness :
    replExecute (.thrown ("boom") (some ("st"))) =
      .obj [("__rlm_error", .bool true), ("message", .str ("boom")),
            ("stack", .str (strTake ("st") 500))] ∧
    (∃ pre post, summarize ("env.x = 1") (replExecute (.thrown ("boom") none)) =
      pre ++ (("Result: ERROR") ++ post)) ∧
    (∃ iterEvts hist2 recs2,
      (runLoop throwOracle none 5 0 0 [] []).events =
        iterEvts ++ (runLoop throwOracle none 4 1 0 hist2 recs2).events ∧
      iterEvts.countP Event.isComplete = 0 ∧
      (runLoop throwOracle none 5 0 0 [] []).status =
        (runLoop throwOracle none 4 1 0 hist2 recs2).status) :=
  c4_error_capture ("boom") ("st") ("env.x = 1") throwOracle 4 0 0 [] [] []
    ("```repl\nboomcode()\n```") (fun _ => (.thrown ("boom") (some ("st")), none))
    rfl (by decide) (fun _ => ⟨"boom", some ("st"), rfl⟩)

/-- A small iteration record for the C7 witness. -/
def tinyHistoryRecord : IterationRecord :=
  ⟨1, [], "queried tab DOM", "## Iteration 1 (1 code block)\nCode:\n  env.x = 1\nResult: void", []⟩

theorem c7_witness :
    estimateTokens
      (String.intercalate ("\n\n") ([tinyHistoryRecord].map (fun i => i.fullMetadata))) ≤
      HISTORY_COMPACTION_THRESHOLD ∧
    compactHistory [tinyHistoryRecord] =
      String.intercalate ("\n\n") ([tinyHistoryRecord].map (fun i => i.fullMetadata)) :=
  ⟨by decide, (c7_compact_history [tinyHistoryRecord]).1 (by decide)⟩

theorem subCallCounterAfter_eq_min (eff k : Nat) :
    subCallCounterAfter eff k = min k eff := by
  induction k with
  | zero => simp [subCallCounterAfter]
  | succ k ih =>
    simp only [subCallCounterAfter, ih]
    split <;> omega

/-- C3 (amended): for every configured sub-call cap `N ≥ 1`, the engine
counter after `N` admitted attempts is `N`, and the `(N+1)`th `llm_query`
attempt resolves (never rejects) to a string beginning with
`[SUB-CALL ERROR] Maximum sub-call limit reached.`, leaving the engine
state machine untouched.  The spec's `N = 0` scenario does not behave
this way: the JS `||` default replaces a configured `0` by the default
cap 50 (see the counterexample). -/
theorem c3_subcall_cap (N : Nat) (hN : 1 ≤ N)
    (initres : Except String Unit) (aborted : Bool)
    (subScript : Nat → SubIterInput) :
    subCallCounterAfter (effectiveMaxSubCalls (some N)) N = N ∧
    (∃ s, handleSubCall (some N) N initres aborted subScript = .ok s ∧
      (("[SUB-CALL ERROR] Maximum sub-call limit reached.").data.isPrefixOf s.data) = true) := by
  have heff : effectiveMaxSubCalls (some N) = N := by
    show (if N = 0 then MAX_SUB_CALLS else N) = N
    rw [if_neg (by omega)]
  constructor
  · rw [heff, subCallCounterAfter_eq_min]
    omega
  · refine ⟨"[SUB-CALL ERROR] Maximum sub-call limit reached.", ?_, by decide⟩
    unfold handleSubCall
    rw [heff, if_pos (Nat.le_refl N)]

/-- C3 counterexample: with the configured cap `N = 0` (the spec's
scenario 5), the first `llm_query` attempt is *not* capped — the `||`
default turns the cap into 50 — and the sub-call returns the sub-agent's
answer, which does not start with the cap error prefix. -/
theorem c3_counterexample :
    handleSubCall (some 0) 0 (.ok ()) false
      (fun _ => .response ("```repl\nsetFinal(\"the answer\")\n```")
        (fun _ => (.ok .undef, some (.str "the answer")))) = .ok ("the answer") ∧
    (("[SUB-CALL ERROR] Maximum sub-call limit reached.").data.isPrefixOf
      ("the answer").data) = false := by
  constructor
  · rfl
  · decide

theorem c3_witness :
    subCallCounterAfter (effectiveMaxSubCalls (some 2)) 2 = 2 ∧
    (∃ s, handleSubCall (some 2) 2 (.ok ()) false (fun _ => .llmError ("down")) = .ok s ∧
      (("[SUB-CALL ERROR] Maximum sub-call limit reached.").data.isPrefixOf s.data) = true) :=
  c3_subcall_cap 2 (by decide) (.ok ()) false (fun _ => .llmError ("down"))

theorem handleSubCall_ok (maxSubCalls : Option Nat) (subCallCount : Nat)
    (initres : Except String Unit) (aborted : Bool)
    (subScript : Nat → SubIterInput) :
    ∃ s, handleSubCall maxSubCalls subCallCount initres aborted subScript = .ok s := by
  unfold handleSubCall
  by_cases h : subCallCount ≥ effectiveMaxSubCalls maxSubCalls
  · rw [if_pos h]
    exact ⟨_, rfl⟩
  · rw [if_neg h]
    cases initres with
    | error e => exact ⟨_, rfl⟩
    | ok u => exact ⟨_, rfl⟩

/-- C10: `handleSubCall` always resolves to a string and never rejects —
the cap check, the `catch` around the body (REPL initialization), the
cancellation check, the LLM-failure retry bound, the no-code bound and
the 10-iteration sub-agent cap all return sentinel or best-effort
strings — so every element of an `llm_batch` result settles with status
`"fulfilled"`. -/
theorem c10_subcall_never_rejects (maxSubCalls : Option Nat) (aborted : Bool)
    (inputs : List SubCallInput) :
    (∀ inp : SubCallInput,
      ∃ s, handleSubCall maxSubCalls inp.subCallCount inp.initResult aborted inp.subScript = .ok s) ∧
    (handleSubBatch maxSubCalls aborted inputs).all (fun e => e.status == "fulfilled") = true := by
  constructor
  · intro inp
    exact handleSubCall_ok maxSubCalls inp.subCallCount inp.initResult aborted inp.subScript
  · rw [List.all_eq_true]
    intro e he
    rw [handleSubBatch, List.mem_map] at he
    obtain ⟨inp, _, hmk⟩ := he
    obtain ⟨s, hs⟩ := handleSubCall_ok maxSubCalls inp.subCallCount inp.initResult aborted inp.subScript
    rw [← hmk, hs]
    rfl

theorem countP_complete_iterHead (o : TaskOracle) (iteration : Nat) :
    (([Event.iterationStart (iteration + 1) o.goal] ++
      (if (o.changes iteration).length > 0 then [Event.pageChanges (o.changes iteration)]
       else []))).countP Event.isComplete = 0 := by
  by_cases h : (o.changes iteration).length > 0 <;>
    simp [h, List.countP_cons, Event.isComplete]

theorem countP_iterStart_iterHead (o : TaskOracle) (iteration : Nat) :
    (([Event.iterationStart (iteration + 1) o.goal] ++
      (if (o.changes iteration).length > 0 then [Event.pageChanges (o.changes iteration)]
       else []))).countP Event.isIterStart = 1 := by
  by_cases h : (o.changes iteration).length > 0 <;>
    simp [h, List.countP_cons, Event.isIterStart]

theorem countP_iterStart_streamTokens (tokens : List String) (n : Nat) :
    (tokens.map (fun t => Event.streamToken t n)).countP Event.isIterStart = 0 := by
  induction tokens with
  | nil => simp
  | cons t rest ih => simp [List.countP_cons, Event.isIterStart, ih]

theorem countP_complete_pcIte (c : Prop) [Decidable c] (x : List TabChange) :
    (if c then [Event.pageChanges x] else []).countP Event.isComplete = 0 := by
  split <;> simp [List.countP_cons, Event.isComplete]

theorem countP_iterStart_pcIte (c : Prop) [Decidable c] (x : List TabChange) :
    (if c then [Event.pageChanges x] else []).countP Event.isIterStart = 0 := by
  split <;> simp [List.countP_cons, Event.isIterStart]

theorem comp_complete_streamToken (n : Nat) :
    (Event.isComplete ∘ fun t : String => Event.streamToken t n) = fun _ => false := by
  funext t
  rfl

theorem comp_iterStart_streamToken (n : Nat) :
    (Event.isIterStart ∘ fun t : String => Event.streamToken t n) = fun _ => false := by
  funext t
  rfl

theorem runLoop_complete_once (o : TaskOracle) (r : Nat) :
    ∀ iteration noCodes hist recs,
      ((runLoop o none r iteration noCodes hist recs).events).countP Event.isComplete = 1 ∧
      ∃ pre v, (runLoop o none r iteration noCodes hist recs).events =
        pre ++ [Event.complete v] := by
  induction r with
  | zero =>
    intro iteration noCodes hist recs
    exact ⟨by simp [runLoop, List.countP_cons, Event.isComplete],
      [], .str (capCompleteMessage iteration), by simp [runLoop]⟩
  | succ r ih =>
    intro iteration noCodes hist recs
    simp only [runLoop]
    cases hscr : o.script iteration with
    | llmError m =>
      simp only [reduceCtorEq, if_false]
      constructor
      · simp [List.countP_append, List.countP_cons, Event.isComplete, countP_complete_pcIte]
      · refine ⟨([Event.iterationStart (iteration + 1) o.goal] ++
          (if (o.changes iteration).length > 0 then [Event.pageChanges (o.changes iteration)]
           else [])) ++ [Event.error ("LLM error: " ++ m)], .null, ?_⟩
        simp
    | response tokens text execs =>
      simp only [reduceCtorEq, if_false]
      by_cases hcb : extractCodeBlocks text = []
      · rw [if_pos hcb]
        by_cases hnc : noCodes + 1 ≥ MAX_NO_CODE_CONTINUATIONS
        · rw [if_pos hnc]
          constructor
          · simp [List.countP_append, List.countP_cons, List.countP_map, Event.isComplete,
              countP_complete_pcIte, comp_complete_streamToken, List.countP_false]
          · refine ⟨(([Event.iterationStart (iteration + 1) o.goal] ++
              (if (o.changes iteration).length > 0 then [Event.pageChanges (o.changes iteration)]
               else [])) ++
              tokens.map (fun t => Event.streamToken t (iteration + 1))) ++
              [Event.error ("Model failed to produce code after multiple attempts.")], .null, ?_⟩
            simp
        · rw [if_neg hnc]
          obtain ⟨ih1, pre, v, ihpre⟩ := ih (iteration + 1) (noCodes + 1)
            (hist ++ [Msg.user (o.ctx iteration)] ++
              [Msg.assistant text, Msg.user (getContinuationPrompt iteration)])
            (recs ++ [noCodeRecord (iteration + 1) (o.changes iteration)])
          simp only [List.append_assoc, List.singleton_append] at ih1
          constructor
          · simp [List.countP_append, List.countP_cons, List.countP_map, Event.isComplete,
              countP_complete_pcIte, comp_complete_streamToken, List.countP_false, ih1]
          · refine ⟨(([Event.iterationStart (iteration + 1) o.goal] ++
              (if (o.changes iteration).length > 0 then [Event.pageChanges (o.changes iteration)]
               else [])) ++
              tokens.map (fun t => Event.streamToken t (iteration + 1))) ++ pre, v, ?_⟩
            rw [ihpre]
            simp
      · rw [if_neg hcb]
        cases hfv : (runBlocks execs (extractCodeBlocks text) 0).finalVal with
        | some v =>
          simp only [hfv]
          constructor
          · simp [List.countP_append, List.countP_cons, List.countP_map, Event.isComplete,
              countP_complete_pcIte, comp_complete_streamToken, List.countP_false,
              runBlocks_countP_complete]
          · exact ⟨([Event.iterationStart (iteration + 1) o.goal] ++
              (if (o.changes iteration).length > 0 then [Event.pageChanges (o.changes iteration)]
               else [])) ++
              tokens.map (fun t => Event.streamToken t (iteration + 1)) ++
              (runBlocks execs (extractCodeBlocks text) 0).events ++
              [Event.envUpdate (o.envMeta iteration)], v, rfl⟩
        | none =>
          simp only [hfv]
          obtain ⟨ih1, pre, v, ihpre⟩ := ih (iteration + 1) 0
            (hist ++ [Msg.user (o.ctx iteration)] ++ [Msg.assistant text])
            (recs ++ [codeRecord (iteration + 1)
              (runBlocks execs (extractCodeBlocks text) 0).blocks (o.changes iteration)])
          simp only [List.append_assoc, List.singleton_append] at ih1
          constructor
          · simp [List.countP_append, List.countP_cons, List.countP_map, Event.isComplete,
              countP_complete_pcIte, comp_complete_streamToken, List.countP_false,
              runBlocks_countP_complete, ih1]
          · refine ⟨(([Event.iterationStart (iteration + 1) o.goal] ++
              (if (o.changes iteration).length > 0 then [Event.pageChanges (o.changes iteration)]
               else [])) ++
              tokens.map (fun t => Event.streamToken t (iteration + 1)) ++
              (runBlocks execs (extractCodeBlocks text) 0).events ++
              [Event.envUpdate (o.envMeta iteration)]) ++ pre, v, ?_⟩
            rw [ihpre]
            simp

/-- C5 (amended): for every submitted task in which `cancel()` is never
invoked, the `complete` event is emitted exactly once and is the last
event, across all of the termination paths the loop itself takes
(`setFinal`, iteration cap, LLM error, no-code error).  A `cancel()`
call breaks this: it unconditionally emits its own `complete` in
addition to the loop's (see the counterexample). -/
theorem c5_complete_once (o : TaskOracle) (maxIter : Nat) :
    ((runTask o maxIter none).events).countP Event.isComplete = 1 ∧
    ∃ pre v, (runTask o maxIter none).events = pre ++ [Event.complete v] :=
  runLoop_complete_once o maxIter 0 0 [] []

/-- Oracle for the C5 counterexample (its script is never reached: the
task is cancelled before iteration 0's loop-top check). -/
def cancelDemoOracle : TaskOracle where
  goal := "demo"
  script := fun _ => .llmError ("unused")
  changes := fun _ => []
  ctx := fun _ => "ctx"
  envMeta := fun _ => "env"

/-- C5 counterexample: when `cancel()` fires before the loop-top check of
iteration 0, `cancel()` itself emits `complete` (context.ts line 772) and
the aborted loop emits a second one (lines 304–308): two `complete` events
for one task, and an event after the first `complete`. -/
theorem c5_counterexample :
    ((runTask cancelDemoOracle 2 (some 0)).events).countP Event.isComplete = 2 ∧
    (runTask cancelDemoOracle 2 (some 0)).events =
      [Event.complete (.str cancelCompleteMessage),
       Event.complete (.str cancelLoopMessage)] := by
  constructor
  · rfl
  · rfl

theorem runLoop_cap (o : TaskOracle)
    (hyp : ∀ i, ∃ tokens text execs, o.script i = .response tokens text execs ∧
      extractCodeBlocks text ≠ [] ∧ ∀ b, (execs b).2 = none) (r : Nat) :
    ∀ iteration noCodes hist recs,
      (runLoop o none r iteration noCodes hist recs).status = .complete ∧
      ((runLoop o none r iteration noCodes hist recs).events).countP Event.isIterStart = r ∧
      ∃ pre, (runLoop o none r iteration noCodes hist recs).events =
        pre ++ [Event.complete (.str (capCompleteMessage (iteration + r)))] := by
  induction r with
  | zero =>
    intro iteration noCodes hist recs
    refine ⟨rfl, by simp [runLoop, List.countP_cons, Event.isIterStart], [], ?_⟩
    simp [runLoop]
  | succ r ih =>
    intro iteration noCodes hist recs
    obtain ⟨tokens, text, execs, hscr, hcb, hnone⟩ := hyp iteration
    have hfv : (runBlocks execs (extractCodeBlocks text) 0).finalVal = none :=
      runBlocks_finalVal_none execs _ 0 hnone
    simp only [runLoop, reduceCtorEq, if_false, hscr]
    rw [if_neg hcb]
    simp only [hfv]
    obtain ⟨ih1, ih2, pre, ihpre⟩ := ih (iteration + 1) 0
      (hist ++ [Msg.user (o.ctx iteration)] ++ [Msg.assistant text])
      (recs ++ [codeRecord (iteration + 1)
        (runBlocks execs (extractCodeBlocks text) 0).blocks (o.changes iteration)])
    have ih2n := ih2
    simp only [List.append_assoc, List.singleton_append] at ih2n
    refine ⟨ih1, ?_, ?_⟩
    · simp [List.countP_append, List.countP_cons, List.countP_map, Event.isIterStart,
        countP_iterStart_pcIte, comp_iterStart_streamToken, List.countP_false,
        runBlocks_countP_iterStart, ih2n]
    · refine ⟨(([Event.iterationStart (iteration + 1) o.goal] ++
        (if (o.changes iteration).length > 0 then [Event.pageChanges (o.changes iteration)]
         else [])) ++
        tokens.map (fun t => Event.streamToken t (iteration + 1)) ++
        (runBlocks execs (extractCodeBlocks text) 0).events ++
        [Event.envUpdate (o.envMeta iteration)]) ++ pre, ?_⟩
      have harg : iteration + 1 + r = iteration + (r + 1) := by omega
      rw [harg] at ihpre
      rw [ihpre]
      simp

/-- C2 (amended): for every task in which each model response yields at
least one code block, no block ever calls `setFinal`, no LLM transport
error occurs and no cancel is issued, exactly `max_iterations`
iteration-start events are emitted and the task then transitions to
Complete (never Error), the final event being `complete` whose message
*begins* "Reached maximum iterations (N). Partial results may be
available" (the source continues "… in the activity log. Check REPL
variables for intermediate data.", so the claim's quoted message is not
the exact payload; and three consecutive no-code responses or an LLM
error would instead end the task in Error before the cap — see the
counterexample). -/
theorem c2_iteration_cap (o : TaskOracle) (maxIter : Nat)
    (hyp : ∀ i, ∃ tokens text execs, o.script i = .response tokens text execs ∧
      extractCodeBlocks text ≠ [] ∧ ∀ b, (execs b).2 = none) :
    (runTask o maxIter none).status = .complete ∧
    ((runTask o maxIter none).events).countP Event.isIterStart = maxIter ∧
    ∃ pre, (runTask o maxIter none).events =
      pre ++ [Event.complete (.str (capCompleteMessage maxIter))] := by
  have h := runLoop_cap o hyp maxIter 0 0 [] []
  rwa [Nat.zero_add] at h

/-- Oracle whose model responses are always prose (no code). -/
def proseOracle : TaskOracle where
  goal := "demo"
  script := fun _ => .response [] ("I will think about it first.") (fun _ => (.ok .undef, none))
  changes := fun _ => []
  ctx := fun _ => "ctx"
  envMeta := fun _ => "env"

/-- Oracle whose model responses always carry one code block that never
calls `setFinal`. -/
def capDemoOracle : TaskOracle where
  goal := "demo"
  script := fun _ => .response [] ("```repl\nenv.x = 1\n```") (fun _ => (.ok (.num 1), none))
  changes := fun _ => []
  ctx := fun _ => "ctx"
  envMeta := fun _ => "env"

/-- C2 counterexample: the claim fails as stated.  With a model that
never calls `setFinal` and is never cancelled but answers prose every
time, the task ends in Error after 3 iteration-starts, not Complete
after `max_iterations = 5`.  And on the cap path the complete payload is
the longer activity-log message, not the claim's exact quoted string. -/
theorem c2_counterexample :
    ((runTask proseOracle 5 none).events).countP Event.isIterStart = 3 ∧
    (runTask proseOracle 5 none).status = .error ∧
    (∃ pre, (runTask capDemoOracle 1 none).events =
      pre ++ [Event.complete (.str (capCompleteMessage 1))]) ∧
    capCompleteMessage 1 ≠
      "Reached maximum iterations (1). Partial results may be available." := by
  refine ⟨rfl, rfl, ⟨_, rfl⟩, by decide⟩

theorem c2_witness :
    (runTask capDemoOracle 2 none).status = .complete ∧
    ((runTask capDemoOracle 2 none).events).countP Event.isIterStart = 2 ∧
    ∃ pre, (runTask capDemoOracle 2 none).events =
      pre ++ [Event.complete (.str (capCompleteMessage 2))] :=
  c2_iteration_cap capDemoOracle 2
    (fun _ => ⟨[], "```repl\nenv.x = 1\n```", fun _ => (.ok (.num 1), none),
      rfl, by decide, fun _ => rfl⟩)

theorem countP_codeGen_pcIte (c : Prop) [Decidable c] (x : List TabChange) :
    (if c then [Event.pageChanges x] else []).countP Event.isCodeGen = 0 := by
  split <;> simp [List.countP_cons, Event.isCodeGen]

theorem comp_codeGen_streamToken (n : Nat) :
    (Event.isCodeGen ∘ fun t : String => Event.streamToken t n) = fun _ => false := by
  funext t
  rfl

/-- C1: if the `j`-th code block of an iteration calls `setFinal(x)` (and
no earlier block did), then no further block of that iteration is
executed (exactly `j + 1` `code-generated` events are emitted in the
whole remaining run), the task transitions to Complete within the same
iteration (exactly one `iteration-start` is emitted from this point on,
i.e. zero subsequent iteration-start events), and the terminal `complete`
event carries `final = x`. -/
theorem c1_set_final_terminates (o : TaskOracle) (r iteration noCodes : Nat)
    (hist : List Msg) (recs : List IterationRecord)
    (tokens : List String) (text : String) (execs : Nat → EvalOutcome × Option Val)
    (j : Nat) (x : Val)
    (hscript : o.script iteration = .response tokens text execs)
    (hj : j < (extractCodeBlocks text).length)
    (hfin : (execs j).2 = some x)
    (hprev : ∀ k, k < j → (execs k).2 = none) :
    (runLoop o none (r + 1) iteration noCodes hist recs).status = .complete ∧
    ((runLoop o none (r + 1) iteration noCodes hist recs).events).countP
      Event.isIterStart = 1 ∧
    ((runLoop o none (r + 1) iteration noCodes hist recs).events).countP
      Event.isCodeGen = j + 1 ∧
    ∃ pre, (runLoop o none (r + 1) iteration noCodes hist recs).events =
      pre ++ [Event.complete x] := by
  have hcb : ¬ extractCodeBlocks text = [] := by
    intro h
    rw [h] at hj
    exact Nat.not_lt_zero j hj
  obtain ⟨hfv, hcg⟩ := runBlocks_first_final execs (extractCodeBlocks text) 0 j x hj
    (by rwa [Nat.zero_add]) (fun k hk => by rw [Nat.zero_add]; exact hprev k hk)
  simp only [runLoop, reduceCtorEq, if_false, hscript]
  rw [if_neg hcb]
  simp only [hfv]
  refine ⟨trivial, ?_, ?_, ?_⟩
  · simp [List.countP_append, List.countP_cons, List.countP_map, Event.isIterStart,
      countP_iterStart_pcIte, comp_iterStart_streamToken, List.countP_false,
      runBlocks_countP_iterStart]
  · simp [List.countP_append, List.countP_cons, List.countP_map, Event.isCodeGen,
      countP_codeGen_pcIte, comp_codeGen_streamToken, List.countP_false, hcg]
  · exact ⟨([Event.iterationStart (iteration + 1) o.goal] ++
      (if (o.changes iteration).length > 0 then [Event.pageChanges (o.changes iteration)]
       else [])) ++
      tokens.map (fun t => Event.streamToken t (iteration + 1)) ++
      (runBlocks execs (extractCodeBlocks text) 0).events ++
      [Event.envUpdate (o.envMeta iteration)], rfl⟩

/-- Oracle whose first response immediately calls `setFinal("hello")`
(the spec's scenario 1). -/
def finalDemoOracle : TaskOracle where
  goal := "hi"
  script := fun _ => .response [] ("```repl\nsetFinal(\"hello\")\n```")
    (fun _ => (.ok .undef, some (.str "hello")))
  changes := fun _ => []
  ctx := fun _ => "ctx"
  envMeta := fun _ => "env"

theorem c1_witness :
    (runLoop finalDemoOracle none 25 0 0 [] []).status = .complete ∧
    ((runLoop finalDemoOracle none 25 0 0 [] []).events).countP Event.isIterStart = 1 ∧
    ((runLoop finalDemoOracle none 25 0 0 [] []).events).countP Event.isCodeGen = 1 ∧
    ∃ pre, (runLoop finalDemoOracle none 25 0 0 [] []).events =
      pre ++ [Event.complete (.str ("hello"))] :=
  c1_set_final_terminates finalDemoOracle 24 0 0 [] [] []
    ("```repl\nsetFinal(\"hello\")\n```") (fun _ => (.ok .undef, some (.str "hello")))
    0 (.str ("hello")) rfl (by decide) rfl
    (fun k hk => absurd hk (Nat.not_lt_zero k))

/-- C6: a zero-code model response never terminates the task by itself.
With fewer than `MAX_NO_CODE_CONTINUATIONS = 3` consecutive no-code
responses the iteration appends the assistant turn and the continuation
prompt to the conversation history, records a no-code iteration, and
proceeds to the next loop step; on the third consecutive no-code response
the task transitions to Error, emitting an `error` event followed by
`complete{final: null}`. -/
theorem c6_no_code_continuation (o : TaskOracle) (r iteration noCodes : Nat)
    (hist : List Msg) (recs : List IterationRecord)
    (tokens : List String) (text : String) (execs : Nat → EvalOutcome × Option Val)
    (hscript : o.script iteration = .response tokens text execs)
    (hcb : extractCodeBlocks text = []) :
    (noCodes + 1 < MAX_NO_CODE_CONTINUATIONS →
      runLoop o none (r + 1) iteration noCodes hist recs =
        ⟨([Event.iterationStart (iteration + 1) o.goal] ++
            (if (o.changes iteration).length > 0 then [Event.pageChanges (o.changes iteration)]
             else [])) ++
          tokens.map (fun t => Event.streamToken t (iteration + 1)) ++
          (runLoop o none r (iteration + 1) (noCodes + 1)
            (hist ++ [Msg.user (o.ctx iteration)] ++
              [Msg.assistant text, Msg.user (getContinuationPrompt iteration)])
            (recs ++ [noCodeRecord (iteration + 1) (o.changes iteration)])).events,
         (runLoop o none r (iteration + 1) (noCodes + 1)
            (hist ++ [Msg.user (o.ctx iteration)] ++
              [Msg.assistant text, Msg.user (getContinuationPrompt iteration)])
            (recs ++ [noCodeRecord (iteration + 1) (o.changes iteration)])).status,
         (runLoop o none r (iteration + 1) (noCodes + 1)
            (hist ++ [Msg.user (o.ctx iteration)] ++
              [Msg.assistant text, Msg.user (getContinuationPrompt iteration)])
            (recs ++ [noCodeRecord (iteration + 1) (o.changes iteration)])).history,
         (runLoop o none r (iteration + 1) (noCodes + 1)
            (hist ++ [Msg.user (o.ctx iteration)] ++
              [Msg.assistant text, Msg.user (getContinuationPrompt iteration)])
            (recs ++ [noCodeRecord (iteration + 1) (o.changes iteration)])).records⟩) ∧
    (noCodes + 1 ≥ MAX_NO_CODE_CONTINUATIONS →
      runLoop o none (r + 1) iteration noCodes hist recs =
        ⟨([Event.iterationStart (iteration + 1) o.goal] ++
            (if (o.changes iteration).length > 0 then [Event.pageChanges (o.changes iteration)]
             else [])) ++
          tokens.map (fun t => Event.streamToken t (iteration + 1)) ++
          [Event.error ("Model failed to produce code after multiple attempts."),
           Event.complete .null],
         .error,
         hist ++ [Msg.user (o.ctx iteration)] ++
           [Msg.assistant text, Msg.user (getContinuationPrompt iteration)],
         recs⟩) := by
  constructor
  · intro hlt
    have hnc : ¬ (noCodes + 1 ≥ MAX_NO_CODE_CONTINUATIONS) := by omega
    simp only [runLoop, reduceCtorEq, if_false, hscript]
    rw [if_pos hcb, if_neg hnc]
  · intro hge
    simp only [runLoop, reduceCtorEq, if_false, hscript]
    rw [if_pos hcb, if_pos hge]

theorem c6_witness :
    (runLoop proseOracle none 5 0 0 [] [] =
      ⟨([Event.iterationStart 1 proseOracle.goal] ++
          (if (proseOracle.changes 0).length > 0 then [Event.pageChanges (proseOracle.changes 0)]
           else [])) ++
        ([] : List String).map (fun t => Event.streamToken t 1) ++
        (runLoop proseOracle none 4 1 1
          ([] ++ [Msg.user (proseOracle.ctx 0)] ++
            [Msg.assistant ("I will think about it first."),
             Msg.user (getContinuationPrompt 0)])
          ([] ++ [noCodeRecord 1 (proseOracle.changes 0)])).events,
       (runLoop proseOracle none 4 1 1
          ([] ++ [Msg.user (proseOracle.ctx 0)] ++
            [Msg.assistant ("I will think about it first."),
             Msg.user (getContinuationPrompt 0)])
          ([] ++ [noCodeRecord 1 (proseOracle.changes 0)])).status,
       (runLoop proseOracle none 4 1 1
          ([] ++ [Msg.user (proseOracle.ctx 0)] ++
            [Msg.assistant ("I will think about it first."),
             Msg.user (getContinuationPrompt 0)])
          ([] ++ [noCodeRecord 1 (proseOracle.changes 0)])).history,
       (runLoop proseOracle none 4 1 1
          ([] ++ [Msg.user (proseOracle.ctx 0)] ++
            [Msg.assistant ("I will think about it first."),
             Msg.user (getContinuationPrompt 0)])
          ([] ++ [noCodeRecord 1 (proseOracle.changes 0)])).records⟩) ∧
    (runLoop proseOracle none 3 2 2 [] [] =
      ⟨([Event.iterationStart 3 proseOracle.goal] ++
          (if (proseOracle.changes 2).length > 0 then [Event.pageChanges (proseOracle.changes 2)]
           else [])) ++
        ([] : List String).map (fun t => Event.streamToken t 3) ++
        [Event.error ("Model failed to produce code after multiple attempts."),
         Event.complete .null],
       .error,
       [] ++ [Msg.user (proseOracle.ctx 2)] ++
         [Msg.assistant ("I will think about it first."),
          Msg.user (getContinuationPrompt 2)],
       []⟩) :=
  ⟨(c6_no_code_continuation proseOracle 4 0 0 [] [] []
      ("I will think about it first.") (fun _ => (.ok .undef, none))
      rfl (by decide)).1 (by decide),
   (c6_no_code_continuation proseOracle 2 2 2 [] [] []
      ("I will think about it first.") (fun _ => (.ok .undef, none))
      rfl (by decide)).2 (by decide)⟩

/-! ## Concrete sanity checks

Direct evaluations of the embedding on literal inputs, mirroring the
concrete scenarios of §8 of the design notes. -/

/-- Strategy 1 in isolation: a ```repl fence. -/
theorem extractCodeBlocks_replFence_sample :
    extractCodeBlocks ("```repl\nsetFinal(\"hello\")\n```") = ["setFinal(\"hello\")"] := by
  decide

/-- Strategy 2: an untagged or `js`-tagged fence is accepted when no
```repl fence exists. -/
theorem extractCodeBlocks_anyFence_sample :
    extractCodeBlocks ("Here:\n```js\nconsole.log(1)\n```\ndone") = ["console.log(1)"] := by
  decide

/-- Strategy 3: a tool-call JSON body with a string `code` field. -/
theorem extractCodeBlocks_json_sample :
    extractCodeBlocks ("\x7b\"code\": \"env.x = 1\"\x7d") = ["env.x = 1"] := by
  decide

/-- Strategy 4: bare code lines are joined into one block. -/
theorem extractCodeBlocks_bare_sample :
    extractCodeBlocks ("Okay\n\nawait waitForLoad(t)\nconst y = 2") =
      ["await waitForLoad(t)\nconst y = 2"] := by
  decide

/-- A prose-only response yields the empty list (the continuation path). -/
theorem extractCodeBlocks_prose_sample :
    extractCodeBlocks ("I will think about it first.") = [] := by
  decide

/-- Two ```repl fences yield two blocks, in order. -/
theorem extractCodeBlocks_two_blocks_sample :
    extractCodeBlocks ("```repl\nsetFinal(1)\n``` and ```repl\nlog(2)\n```") =
      ["setFinal(1)", "log(2)"] := by
  decide

/-- Small results pass through `capResult` unchanged. -/
theorem capResult_small_sample :
    capResult (.str ("hi")) EXEC_RESULT_CAP = .str ("hi") := rfl

/-- An `undefined` execution result summarises as `void` (scenario 1's
`code-result` metadata). -/
theorem summarizeResult_void_sample : summarizeResult .undef = "void" := rfl

/-- The sub-agent loop that runs code without ever calling `setFinal`
exhausts its 10 iterations and returns the cap sentinel. -/
theorem subLoop_cap_sample :
    subLoop (fun _ => .response ("```repl\nenv.x = 1\n```") (fun _ => (.ok (.num 1), none)))
      false MAX_SUB_ITERATIONS 0 0 0 =
      "[SUB-CALL ERROR] Sub-agent reached 10 iterations without calling setFinal(). It may have gotten stuck. Try rephrasing or simplifying the sub-task." := by
  decide
